import Mathlib

/-!
Verification development for the csv-intelligence-layer ingestion pipeline.

The definitions below are a shallow embedding of the TypeScript source:
  * src/services/csv-parser.ts        (delimiter detection, streaming parse)
  * src/services/type-inference.ts    (per-column type voting)
  * src/services/column-mapping.ts    (multi-strategy source/target matching)
  * src/workers/parse.worker.ts, infer.worker.ts, map.worker.ts
  * src/workers/validate.worker.ts    (coercion, validators, row classification)
  * src/workers/output.worker.ts      (output coercion and row transformation)
  * src/api/routes/ingestions.ts      (the resolve endpoint)

JavaScript runtime primitives that the code calls (parseInt, parseFloat,
trim, toLowerCase) are embedded directly; environment-defined behaviour
(the Date constructor and its ISO formatting, the URL constructor,
JSON.parse, RegExp evaluation for user-supplied validator patterns, and
float-to-string formatting) is abstracted into a JsRuntime parameter so
that theorems quantify over every conforming runtime.
-/

namespace CSVIL

/-! ### JavaScript string and number primitives -/

/-- Whitespace as treated by JS trim and parseInt/parseFloat prefix skipping
(ASCII fragment; the inputs of interest contain only ASCII whitespace). -/
def jsWs (c : Char) : Bool :=
  c = ' ' ∨ c = '\t' ∨ c = '\n' ∨ c = '\r' ∨ c = '\x0b' ∨ c = '\x0c'

/-- Embedding of String.prototype.trim. -/
def jsTrimList (cs : List Char) : List Char :=
  ((cs.dropWhile jsWs).reverse.dropWhile jsWs).reverse

/-- Embedding of String.prototype.trim on Lean strings. -/
def jsTrim (s : String) : String :=
  String.mk (jsTrimList s.data)

/-- Embedding of String.prototype.toLowerCase (ASCII fragment). -/
def jsToLower (s : String) : String :=
  String.mk (s.data.map Char.toLower)

/-- Numeric value of a list of decimal digits. -/
def digitsVal (ds : List Char) : Nat :=
  ds.foldl (fun a c => a * 10 + (c.toNat - '0'.toNat)) 0

/-- Embedding of parseInt(str, 10): skip leading whitespace, optional sign,
then the longest decimal-digit run; NaN (none) when that run is empty.
Digit runs beyond double precision lose exactness in JS; the claims under
study only involve small literals, where the embedding is exact. -/
def jsParseIntCore (l : List Char) : Option Nat :=
  let ds := l.takeWhile Char.isDigit
  if ds = [] then none else some (digitsVal ds)

def jsParseInt (s : String) : Option Int :=
  match s.data.dropWhile jsWs with
  | c :: rest =>
    if c = '-' then (jsParseIntCore rest).map (fun n => -(n : Int))
    else if c = '+' then (jsParseIntCore rest).map (fun n => (n : Int))
    else (jsParseIntCore (c :: rest)).map (fun n => (n : Int))
  | [] => none

/-- Result of parseFloat, minus NaN (which the source always checks for
with isNaN and treats as failure, so NaN is the none of the Option). -/
inductive JsNum where
  | finite (q : ℚ)
  | posInf
  | negInf
deriving DecidableEq, Repr

/-- Mantissa of a JS decimal literal: digits [ . digits* ] or . digits. -/
def jsMantissa (cs : List Char) : Option (ℚ × List Char) :=
  let intPart := cs.takeWhile Char.isDigit
  let rest1 := cs.drop intPart.length
  match rest1 with
  | c :: rest2 =>
    if c = '.' then
      let fracPart := rest2.takeWhile Char.isDigit
      if intPart = [] ∧ fracPart = [] then none
      else
        some ((digitsVal intPart : ℚ) + (digitsVal fracPart : ℚ) / (10 : ℚ) ^ fracPart.length,
              rest2.drop fracPart.length)
    else if intPart = [] then none else some ((digitsVal intPart : ℚ), c :: rest2)
  | [] =>
    if intPart = [] then none else some ((digitsVal intPart : ℚ), rest1)

/-- Optional exponent suffix of a JS decimal literal; an e/E not followed by
digits is ignored, as parseFloat backtracks to the longest valid literal. -/
def jsApplyExp (q : ℚ) (cs : List Char) : ℚ :=
  match cs with
  | e :: rest =>
    if e = 'e' ∨ e = 'E' then
      let (neg, rest2) :=
        match rest with
        | '-' :: r => (true, r)
        | '+' :: r => (false, r)
        | r => (false, r)
      let ds := rest2.takeWhile Char.isDigit
      if ds = [] then q
      else if neg then q / (10 : ℚ) ^ digitsVal ds else q * (10 : ℚ) ^ digitsVal ds
    else q
  | [] => q

/-- Embedding of parseFloat: skip whitespace, optional sign, then either the
literal Infinity or a decimal mantissa with optional exponent; none models
NaN. Overflow of huge literals to Infinity is not modelled. -/
def jsParseFloatCore (neg : Bool) (l : List Char) : Option JsNum :=
  if l.take 8 = "Infinity".data then
    some (if neg then JsNum.negInf else JsNum.posInf)
  else
    match jsMantissa l with
    | some (q, rest) =>
      let q2 := jsApplyExp q rest
      some (JsNum.finite (if neg then -q2 else q2))
    | none => none

def jsParseFloat (s : String) : Option JsNum :=
  match s.data.dropWhile jsWs with
  | c :: rest =>
    if c = '-' then jsParseFloatCore true rest
    else if c = '+' then jsParseFloatCore false rest
    else jsParseFloatCore false (c :: rest)
  | [] => none

/-! ### Data model (src/types/index.ts) -/

inductive ColumnType where
  | string | integer | float | boolean | date | datetime
  | email | uuid | url | json
deriving DecidableEq, Repr

inductive ErrorPolicy where
  | reject_row | flag | coerce_default | abort
deriving DecidableEq, Repr

inductive MappingMethod where
  | exact | case_insensitive | alias | fuzzy | ai | manual | unmapped
deriving DecidableEq, Repr

inductive ErrorKind where
  | type_coercion | validation_failed | required_missing
deriving DecidableEq, Repr

/-- Dynamic cell values flowing through coercion and output. A raw CSV cell
is a string; coercion may turn it into null, a number, a boolean, an
ISO-formatted string, or a parsed JSON document (kept by its source text). -/
inductive Value where
  | vNull
  | vStr (s : String)
  | vInt (n : ℤ)
  | vNum (x : JsNum)
  | vBool (b : Bool)
  | vJson (src : String)
deriving DecidableEq, Repr

inductive Validator where
  | regex (pattern : String) (message : Option String)
  | min (value : ℚ) (message : Option String)
  | max (value : ℚ) (message : Option String)
  | minLength (value : ℚ) (message : Option String)
  | maxLength (value : ℚ) (message : Option String)
  | enum (values : List String) (message : Option String)
  | unique (message : Option String)
deriving DecidableEq, Repr

structure ColumnDefinition where
  name : String
  type : ColumnType
  required : Bool := false
  nullable : Bool := true
  aliases : List String := []
  default : Option Value := none
  validators : List Validator := []
deriving DecidableEq, Repr

structure CanonicalSchema where
  name : String
  version : String := "1.0.0"
  columns : List ColumnDefinition
  errorPolicy : ErrorPolicy := ErrorPolicy.flag
  strict : Bool := false
deriving DecidableEq, Repr

structure InferredColumn where
  name : String
  inferredType : ColumnType
  confidence : ℚ
  nullable : Bool
  uniqueRatio : ℚ
  sampleValues : List String
  nullCount : Nat
  totalCount : Nat
deriving DecidableEq, Repr

structure InferredSchema where
  columns : List InferredColumn
  rowCount : Nat
  parseErrors : Nat
deriving DecidableEq, Repr

structure ColumnMapping where
  sourceColumn : String
  targetColumn : Option String
  method : MappingMethod
  confidence : ℚ
  alternativeMappings : Option (List (String × ℚ)) := none
deriving DecidableEq, Repr

structure MappingResult where
  mappings : List ColumnMapping
  requiresReview : Bool
  ambiguousMappings : List ColumnMapping
deriving DecidableEq, Repr

structure CellError where
  row : Nat
  column : String
  value : Value
  expectedType : ColumnType
  errorType : ErrorKind
  message : String
  validatorType : Option String := none
deriving DecidableEq, Repr

inductive RowAction where
  | accepted | rejected | flagged | coerced
deriving DecidableEq, Repr

structure RowError where
  row : Nat
  errors : List CellError
  action : RowAction
deriving DecidableEq, Repr

structure ValidationResult where
  validRowCount : Nat
  invalidRowCount : Nat
  errors : List RowError
  errorsByColumn : List (String × Nat)
deriving DecidableEq, Repr

/-! ### Rows and records

A parsed CSV row is a JS object mapping header names to string cells; a
missing key reads as undefined. Output records map target column names to
coerced values; assignment overwrites an existing key. -/

/-- Parsed CSV row: header name to raw string cell. -/
abbrev Row := List (String × String)

/-- First-match association lookup, the JS object or Map read. -/
def assocGet {β : Type} (l : List (String × β)) (k : String) : Option β :=
  match l with
  | [] => none
  | (k2, v) :: rest => if k2 = k then some v else assocGet rest k

/-- Reading row[name] in JS: undefined when the key is absent. -/
def rowGet (r : Row) (k : String) : Option String :=
  assocGet r k

/-- Record of output values keyed by column name. -/
abbrev Record := List (String × Value)

/-- Reading rec[name]. -/
def recordGet (r : Record) (k : String) : Option Value :=
  assocGet r k

/-- JS object assignment rec[k] = v: overwrite in place or append. -/
def recordSet (r : Record) (k : String) (v : Value) : Record :=
  if (assocGet r k).isSome then
    r.map (fun p => if p.1 = k then (k, v) else p)
  else
    r ++ [(k, v)]

/-- The raw value rendered as a JS value (undefined and null both print as
null once persisted in a CellError). -/
def rawToValue : Option String → Value
  | none => Value.vNull
  | some s => Value.vStr s

/-- Emptiness test of validate.worker.ts: value === null, undefined or "". -/
def isEmptyRaw : Option String → Bool
  | none => true
  | some s => s = ""

/-! ### Environment-defined JS behaviour

The Date and URL constructors, JSON.parse, user-supplied RegExp patterns
and float-to-string formatting are provided by the JS engine, not by the
repository; theorems quantify over an arbitrary runtime. -/

structure JsRuntime where
  /-- new Date(str).getTime(): epoch milliseconds, none when the date is invalid. -/
  dateParse : String → Option Int
  /-- new Date(y, m - 1, d).getTime() for the numeric constructor. -/
  dateYMD : Int → Int → Int → Option Int
  /-- Date.prototype.toISOString of a timestamp. -/
  toISO : Int → String
  /-- new URL(str) succeeds. -/
  urlOk : String → Bool
  /-- JSON.parse(str) succeeds on any JSON value. -/
  jsonOk : String → Bool
  /-- JSON.parse(str) succeeds and yields a non-null object (or array). -/
  jsonObjOk : String → Bool
  /-- String(x) applied to the value JSON.parse produced from the given text. -/
  jsonToString : String → String
  /-- new RegExp(pattern).test(str) for user-supplied validator patterns. -/
  regexTest : String → String → Bool
  /-- String(x) for a JS number. -/
  numToString : JsNum → String

/-- Degenerate runtime used to evaluate witnesses on inputs whose control
flow never consults the environment-defined primitives. -/
def rtZero : JsRuntime where
  dateParse := fun _ => none
  dateYMD := fun _ _ _ => none
  toISO := fun _ => ""
  urlOk := fun _ => false
  jsonOk := fun _ => false
  jsonObjOk := fun _ => false
  jsonToString := fun _ => ""
  regexTest := fun _ _ => false
  numToString := fun _ => ""

/-! ### Fixed regular expressions of the source, embedded structurally -/

/-- Hex digit after lowercasing. -/
def hexDigit (c : Char) : Bool :=
  c.isDigit ∨ ('a' ≤ c ∧ c ≤ 'f')

/-- Embedding of the email regex of validate.worker.ts and
type-inference.ts: one at-sign, no whitespace anywhere, a nonempty local
part, and a dot strictly inside the domain part. This is the set of
strings matched by that anchored pattern. -/
def emailOk (s : String) : Bool :=
  let cs := s.data
  let l := cs.takeWhile (fun c => c ≠ '@')
  let r := (cs.dropWhile (fun c => c ≠ '@')).drop 1
  cs.count '@' = 1 ∧ cs.all (fun c => ¬ jsWs c) ∧ l ≠ [] ∧ '.' ∈ (r.drop 1).dropLast

/-- Embedding of the canonical v1-v5 UUID regex (case-insensitive). -/
def uuidOk (s : String) : Bool :=
  let l := (jsToLower s).data
  match l.splitOn '-' with
  | [g1, g2, g3, g4, g5] =>
    g1.length = 8 ∧ g1.all hexDigit ∧
    g2.length = 4 ∧ g2.all hexDigit ∧
    g3.length = 4 ∧ g3.all hexDigit ∧ (g3.headD 'x' ∈ ['1', '2', '3', '4', '5']) ∧
    g4.length = 4 ∧ g4.all hexDigit ∧ (g4.headD 'x' ∈ ['8', '9', 'a', 'b']) ∧
    g5.length = 12 ∧ g5.all hexDigit
  | _ => false

/-- Embedding of the URL regex of type-inference.ts: http or https scheme,
then at least one character with no whitespace to the end. -/
def urlRegexOk (s : String) : Bool :=
  let cs := s.data
  let body : Option (List Char) :=
    if cs.take 8 = "https://".data then some (cs.drop 8)
    else if cs.take 7 = "http://".data then some (cs.drop 7)
    else none
  match body with
  | some b => b ≠ [] ∧ b.all (fun c => ¬ jsWs c)
  | none => false

/-- Prefix match of the ISO date regex of validate.worker.ts. -/
def isoDatePreOk (cs : List Char) : Bool :=
  match cs with
  | a :: b :: c :: d :: '-' :: e :: f :: '-' :: g :: h :: _ =>
    [a, b, c, d, e, f, g, h].all Char.isDigit
  | _ => false

/-- Parse a date pattern made of three dash- or slash-separated digit runs
with the given length bounds; returns the three numeric components. -/
def threePartDate (sep : Char) (lo1 hi1 lo2 hi2 lo3 hi3 : Nat) (cs : List Char) :
    Option (Nat × Nat × Nat) :=
  match cs.splitOn sep with
  | [p1, p2, p3] =>
    if p1.all Char.isDigit ∧ lo1 ≤ p1.length ∧ p1.length ≤ hi1 ∧
       p2.all Char.isDigit ∧ lo2 ≤ p2.length ∧ p2.length ≤ hi2 ∧
       p3.all Char.isDigit ∧ lo3 ≤ p3.length ∧ p3.length ≤ hi3 then
      some (digitsVal p1, digitsVal p2, digitsVal p3)
    else none
  | _ => none

/-- JS toISOString().split("T")[0]. -/
def dateOnly (s : String) : String :=
  String.mk (s.data.takeWhile (fun c => c ≠ 'T'))

/-! ### Type coercion (validate.worker.ts, coerceValue) -/

structure CoerceResult where
  success : Bool
  value : Value
  error : Option String := none
deriving DecidableEq, Repr

def BOOLEAN_TRUE : List String := ["true", "1", "yes", "y", "on"]
def BOOLEAN_FALSE : List String := ["false", "0", "no", "n", "off"]

/-- Date parsing cascade of coerceValue: strict ISO prefix, then YYYY/MM/DD,
then MM/DD/YYYY, then MM-DD-YYYY, each handed to the Date runtime. -/
def coerceDate (rt : JsRuntime) (str : String) : Option Int :=
  let p1 : Option Int :=
    if isoDatePreOk str.data then rt.dateParse str else none
  match p1 with
  | some t => some t
  | none =>
    match threePartDate '/' 4 4 1 2 1 2 str.data with
    | some (y, m, d) => rt.dateYMD y m d
    | none =>
      match threePartDate '/' 1 2 1 2 4 4 str.data with
      | some (m, d, y) => rt.dateYMD y m d
      | none =>
        match threePartDate '-' 1 2 1 2 4 4 str.data with
        | some (m, d, y) => rt.dateYMD y m d
        | none => none

/-- Embedding of coerceValue of validate.worker.ts. -/
def coerceValue (rt : JsRuntime) (value : Option String) (targetType : ColumnType)
    (columnDef : ColumnDefinition) : CoerceResult :=
  if isEmptyRaw value then
    if columnDef.nullable then ⟨true, Value.vNull, none⟩
    else if columnDef.default.isSome then ⟨true, columnDef.default.getD Value.vNull, none⟩
    else if columnDef.required then ⟨false, Value.vNull, some "Required value is missing"⟩
    else ⟨true, Value.vNull, none⟩
  else
    let str := jsTrim (value.getD "")
    match targetType with
    | ColumnType.string => ⟨true, Value.vStr str, none⟩
    | ColumnType.integer =>
      match jsParseInt str with
      | some n => ⟨true, Value.vInt n, none⟩
      | none => ⟨false, rawToValue value, some ("Cannot parse \"" ++ str ++ "\" as integer")⟩
    | ColumnType.float =>
      match jsParseFloat str with
      | some x => ⟨true, Value.vNum x, none⟩
      | none => ⟨false, rawToValue value, some ("Cannot parse \"" ++ str ++ "\" as float")⟩
    | ColumnType.boolean =>
      let lower := jsToLower str
      if BOOLEAN_TRUE.contains lower then ⟨true, Value.vBool true, none⟩
      else if BOOLEAN_FALSE.contains lower then ⟨true, Value.vBool false, none⟩
      else ⟨false, rawToValue value, some ("Cannot parse \"" ++ str ++ "\" as boolean")⟩
    | ColumnType.date =>
      match coerceDate rt str with
      | some t => ⟨true, Value.vStr (dateOnly (rt.toISO t)), none⟩
      | none => ⟨false, rawToValue value, some ("Cannot parse \"" ++ str ++ "\" as date")⟩
    | ColumnType.datetime =>
      match coerceDate rt str with
      | some t => ⟨true, Value.vStr (rt.toISO t), none⟩
      | none => ⟨false, rawToValue value, some ("Cannot parse \"" ++ str ++ "\" as datetime")⟩
    | ColumnType.email =>
      if emailOk str then ⟨true, Value.vStr (jsToLower str), none⟩
      else ⟨false, rawToValue value, some ("\"" ++ str ++ "\" is not a valid email")⟩
    | ColumnType.uuid =>
      if uuidOk str then ⟨true, Value.vStr (jsToLower str), none⟩
      else ⟨false, rawToValue value, some ("\"" ++ str ++ "\" is not a valid UUID")⟩
    | ColumnType.url =>
      if rt.urlOk str then ⟨true, Value.vStr str, none⟩
      else ⟨false, rawToValue value, some ("\"" ++ str ++ "\" is not a valid URL")⟩
    | ColumnType.json =>
      if rt.jsonOk str then ⟨true, Value.vJson str, none⟩
      else ⟨false, rawToValue value, some ("\"" ++ str ++ "\" is not valid JSON")⟩

/-! ### Validator execution (validate.worker.ts, runValidator) -/

/-- String(value) for the dynamic values reaching validators. -/
def jsToString (rt : JsRuntime) : Value → String
  | Value.vNull => "null"
  | Value.vStr s => s
  | Value.vInt n => toString n
  | Value.vNum x => rt.numToString x
  | Value.vBool b => if b then "true" else "false"
  | Value.vJson s => rt.jsonToString s

/-- The numeric reading used by min and max: the value itself when it is
already a number, otherwise parseFloat of its string form; none is NaN. -/
def valueToNumber (rt : JsRuntime) : Value → Option JsNum
  | Value.vInt n => some (JsNum.finite (n : ℚ))
  | Value.vNum x => some x
  | v => jsParseFloat (jsToString rt v)

def jsNumLt (x : JsNum) (q : ℚ) : Bool :=
  match x with
  | JsNum.finite a => a < q
  | JsNum.posInf => false
  | JsNum.negInf => true

def jsNumGt (x : JsNum) (q : ℚ) : Bool :=
  match x with
  | JsNum.finite a => a > q
  | JsNum.posInf => true
  | JsNum.negInf => false

def validatorTypeName : Validator → String
  | Validator.regex _ _ => "regex"
  | Validator.min _ _ => "min"
  | Validator.max _ _ => "max"
  | Validator.minLength _ _ => "minLength"
  | Validator.maxLength _ _ => "maxLength"
  | Validator.enum _ _ => "enum"
  | Validator.unique _ => "unique"

/-- Embedding of runValidator: per-cell validators; unique is routed
separately by the caller and always passes here. -/
def runValidator (rt : JsRuntime) (value : Value) (v : Validator) :
    Bool × Option String :=
  if value = Value.vNull then (true, none)
  else
    match v with
    | Validator.regex pattern msg =>
      if rt.regexTest pattern (jsToString rt value) then (true, none)
      else (false, some (msg.getD ("Value does not match pattern: " ++ pattern)))
    | Validator.min q msg =>
      match valueToNumber rt value with
      | none => (false, some (msg.getD ("Value must be at least " ++ toString q)))
      | some x =>
        if jsNumLt x q then (false, some (msg.getD ("Value must be at least " ++ toString q)))
        else (true, none)
    | Validator.max q msg =>
      match valueToNumber rt value with
      | none => (false, some (msg.getD ("Value must be at most " ++ toString q)))
      | some x =>
        if jsNumGt x q then (false, some (msg.getD ("Value must be at most " ++ toString q)))
        else (true, none)
    | Validator.minLength q msg =>
      if ((jsToString rt value).data.length : ℚ) < q then
        (false, some (msg.getD ("Value must be at least " ++ toString q ++ " characters")))
      else (true, none)
    | Validator.maxLength q msg =>
      if ((jsToString rt value).data.length : ℚ) > q then
        (false, some (msg.getD ("Value must be at most " ++ toString q ++ " characters")))
      else (true, none)
    | Validator.enum values msg =>
      if values.contains (jsToString rt value) then (true, none)
      else (false, some (msg.getD ("Value must be one of: " ++ String.intercalate ", " values)))
    | Validator.unique _ => (true, none)

/-! ### Row validation (validate.worker.ts, validateRow and the job loop) -/

/-- Per-column seen sets for the unique validator. -/
abbrev Seen := List (String × List Value)

def seenGet (s : Seen) (k : String) : List Value :=
  (assocGet s k).getD []

/-- Set insertion into the per-column seen set. -/
def seenAdd (s : Seen) (k : String) (v : Value) : Seen :=
  if (assocGet s k).isSome then
    s.map (fun p => if p.1 = k then (p.1, if v ∈ p.2 then p.2 else p.2 ++ [v]) else p)
  else
    s ++ [(k, [v])]

/-- The target-to-source reverse index built at the top of validateRow; a
later mapping binding the same target overwrites an earlier one, as a JS
Map.set does. -/
def targetToSource (mr : MappingResult) : String → Option String :=
  fun t =>
    mr.mappings.foldl
      (fun acc m =>
        match m.targetColumn with
        | some tc => if tc = t then some m.sourceColumn else acc
        | none => acc)
      none

/-- The raw cell both workers read for a schema column: the source cell
named by the reverse index, undefined when the column is unmapped. -/
def rawOf (row : Row) (t2s : String → Option String) (colDef : ColumnDefinition) :
    Option String :=
  match t2s colDef.name with
  | some sc => rowGet row sc
  | none => none

/-- One iteration of the validator loop of validateRow: unique is tracked
against the per-column seen set, every other validator goes through
runValidator; a failure pushes a validation_failed cell error. -/
def validatorStep (rt : JsRuntime) (rowNumber : Nat) (colDef : ColumnDefinition)
    (coercedValue : Value) (acc : List CellError × Seen) (v : Validator) :
    List CellError × Seen :=
  match v with
  | Validator.unique msg =>
    if coercedValue ≠ Value.vNull ∧ coercedValue ∈ seenGet acc.2 colDef.name then
      (acc.1 ++ [{ row := rowNumber, column := colDef.name, value := coercedValue,
                   expectedType := colDef.type, errorType := ErrorKind.validation_failed,
                   message := msg.getD "Value must be unique",
                   validatorType := some "unique" }],
       acc.2)
    else if coercedValue ≠ Value.vNull then
      (acc.1, seenAdd acc.2 colDef.name coercedValue)
    else
      (acc.1, acc.2)
  | _ =>
    let res := runValidator rt coercedValue v
    if res.1 then acc
    else
      (acc.1 ++ [{ row := rowNumber, column := colDef.name, value := coercedValue,
                   expectedType := colDef.type, errorType := ErrorKind.validation_failed,
                   message := res.2.getD "Validation failed",
                   validatorType := some (validatorTypeName v) }],
       acc.2)

/-- The loop body of validateRow for a single schema column: required
check, coercion, then the declared validators. Returns the cell value
stored in mappedData, the cell errors pushed, and the updated seen sets. -/
def validateCell (rt : JsRuntime) (row : Row) (rowNumber : Nat)
    (t2s : String → Option String) (seen : Seen) (colDef : ColumnDefinition) :
    Value × List CellError × Seen :=
  let rawValue : Option String := rawOf row t2s colDef
  if colDef.required ∧ isEmptyRaw rawValue then
    (colDef.default.getD Value.vNull,
     [{ row := rowNumber, column := colDef.name, value := rawToValue rawValue,
        expectedType := colDef.type, errorType := ErrorKind.required_missing,
        message := "Required column \"" ++ colDef.name ++ "\" is missing or empty" }],
     seen)
  else
    let coercion := coerceValue rt rawValue colDef.type colDef
    if coercion.success = false then
      ((if colDef.default.isSome then colDef.default.getD Value.vNull else rawToValue rawValue),
       [{ row := rowNumber, column := colDef.name, value := rawToValue rawValue,
          expectedType := colDef.type, errorType := ErrorKind.type_coercion,
          message := coercion.error.getD ("Failed to coerce") }],
       seen)
    else
      let coercedValue := coercion.value
      let run := colDef.validators.foldl
        (validatorStep rt rowNumber colDef coercedValue)
        (([] : List CellError), seen)
      (coercedValue, run.1, run.2)

structure ValidatedRow where
  data : Record
  errors : List CellError
  action : RowAction
deriving DecidableEq, Repr

/-- The schema-column loop of validateRow over an accumulated record,
error list and seen state. -/
def validateCells (rt : JsRuntime) (row : Row) (rowNumber : Nat)
    (t2s : String → Option String) (cols : List ColumnDefinition)
    (acc : Record × List CellError × Seen) : Record × List CellError × Seen :=
  cols.foldl
    (fun (acc : Record × List CellError × Seen) colDef =>
      let cell := validateCell rt row rowNumber t2s acc.2.2 colDef
      (recordSet acc.1 colDef.name cell.1, acc.2.1 ++ cell.2.1, cell.2.2))
    acc

/-- Embedding of validateRow: with a canonical schema every schema column
is processed in order; without one the mapping is applied verbatim. The
action is flagged exactly when some cell error was pushed. -/
def validateRow (rt : JsRuntime) (row : Row) (rowNumber : Nat) (mr : MappingResult)
    (canonicalSchema : Option CanonicalSchema) (seen : Seen) : ValidatedRow × Seen :=
  match canonicalSchema with
  | some cs =>
    let res := validateCells rt row rowNumber (targetToSource mr) cs.columns
      (([] : Record), ([] : List CellError), seen)
    (⟨res.1, res.2.1, if res.2.1 = [] then RowAction.accepted else RowAction.flagged⟩, res.2.2)
  | none =>
    let mapped := mr.mappings.foldl
      (fun (acc : Record) m =>
        match m.targetColumn with
        | some tc => recordSet acc tc (rawToValue (rowGet row m.sourceColumn))
        | none => acc)
      ([] : Record)
    (⟨mapped, [], RowAction.accepted⟩, seen)

/-- Row action selected by the error policy for an invalid row; abort is
handled by the caller, which throws before any action is recorded. -/
def classifyPolicy : ErrorPolicy → RowAction
  | ErrorPolicy.reject_row => RowAction.rejected
  | ErrorPolicy.flag => RowAction.flagged
  | ErrorPolicy.coerce_default => RowAction.coerced
  | ErrorPolicy.abort => RowAction.flagged

/-- errorsByColumn histogram update. -/
def bumpColumn (h : List (String × Nat)) (c : String) : List (String × Nat) :=
  if (assocGet h c).isSome then
    h.map (fun p => if p.1 = c then (p.1, p.2 + 1) else p)
  else h ++ [(c, 1)]

structure ValState where
  seen : Seen
  validRowCount : Nat
  invalidRowCount : Nat
  rowErrors : List RowError
  errorsByColumn : List (String × Nat)
deriving Repr

/-- The row loop of processValidateJob; the abort policy raises, which the
catch block of the worker turns into a failed ingestion. -/
def runValidationAux (rt : JsRuntime) (mr : MappingResult)
    (canonicalSchema : Option CanonicalSchema) (policy : ErrorPolicy) :
    ValState → Nat → List Row → Except String ValState
  | st, _, [] => Except.ok st
  | st, i, row :: rest =>
    let rowNumber := i + 1
    let res := validateRow rt row rowNumber mr canonicalSchema st.seen
    if res.1.errors = [] then
      runValidationAux rt mr canonicalSchema policy
        { st with seen := res.2, validRowCount := st.validRowCount + 1 } (i + 1) rest
    else
      let ebc := res.1.errors.foldl (fun h e => bumpColumn h e.column) st.errorsByColumn
      match policy with
      | ErrorPolicy.abort =>
        Except.error ("Validation aborted due to error in row " ++ toString rowNumber ++ ": " ++
          ((res.1.errors.head?).map CellError.message).getD "Unknown error")
      | p =>
        runValidationAux rt mr canonicalSchema p
          { seen := res.2, validRowCount := st.validRowCount,
            invalidRowCount := st.invalidRowCount + 1,
            rowErrors := st.rowErrors ++ [⟨rowNumber, res.1.errors, classifyPolicy p⟩],
            errorsByColumn := ebc }
          (i + 1) rest

/-- Validation of the full row set, as processValidateJob performs it; the
policy defaults to flag when no schema is attached. -/
def runValidation (rt : JsRuntime) (canonicalSchema : Option CanonicalSchema)
    (mr : MappingResult) (rows : List Row) : Except String ValidationResult :=
  let policy := (canonicalSchema.map CanonicalSchema.errorPolicy).getD ErrorPolicy.flag
  (runValidationAux rt mr canonicalSchema policy ⟨[], 0, 0, [], []⟩ 0 rows).map
    (fun st => ⟨st.validRowCount, st.invalidRowCount, st.rowErrors, st.errorsByColumn⟩)

/-! ### Output stage (output.worker.ts) -/

/-- Embedding of coerceForOutput: the lightweight re-coercion applied when
assembling output rows. Unparseable integers, floats and booleans become
null; unparseable dates fall back to the trimmed string. -/
def coerceForOutput (rt : JsRuntime) (value : Option String) (targetType : ColumnType)
    (colDef : ColumnDefinition) : Value :=
  if isEmptyRaw value then colDef.default.getD Value.vNull
  else
    let str := jsTrim (value.getD "")
    match targetType with
    | ColumnType.integer =>
      match jsParseInt str with
      | some n => Value.vInt n
      | none => Value.vNull
    | ColumnType.float =>
      match jsParseFloat str with
      | some x => Value.vNum x
      | none => Value.vNull
    | ColumnType.boolean =>
      let lower := jsToLower str
      if BOOLEAN_TRUE.contains lower then Value.vBool true
      else if BOOLEAN_FALSE.contains lower then Value.vBool false
      else Value.vNull
    | ColumnType.date =>
      match rt.dateParse str with
      | some t => Value.vStr (dateOnly (rt.toISO t))
      | none => Value.vStr str
    | ColumnType.datetime =>
      match rt.dateParse str with
      | some t => Value.vStr (rt.toISO t)
      | none => Value.vStr str
    | ColumnType.email => Value.vStr (jsToLower str)
    | ColumnType.uuid => Value.vStr (jsToLower str)
    | _ => Value.vStr str

/-- The value transformRow computes for one schema column. -/
def transformCell (rt : JsRuntime) (row : Row) (t2s : String → Option String)
    (isCoerced : Bool) (errorCols : List String) (colDef : ColumnDefinition) : Value :=
  let rawValue : Option String := rawOf row t2s colDef
  if isCoerced && errorCols.contains colDef.name && colDef.default.isSome then
    colDef.default.getD Value.vNull
  else
    coerceForOutput rt rawValue colDef.type colDef

/-- The schema-column loop of transformRow. -/
def transformCells (rt : JsRuntime) (row : Row) (t2s : String → Option String)
    (isCoerced : Bool) (errorCols : List String) (cols : List ColumnDefinition)
    (acc : Record) : Record :=
  cols.foldl
    (fun (acc : Record) colDef =>
      recordSet acc colDef.name (transformCell rt row t2s isCoerced errorCols colDef))
    acc

/-- Embedding of transformRow: rejected rows are dropped; coerced rows take
the column default on error columns that declare one; every other cell is
re-coerced from the raw source value. -/
def transformRow (rt : JsRuntime) (row : Row) (mr : MappingResult)
    (canonicalSchema : Option CanonicalSchema) (rejectedRows : List Nat)
    (rowError : Option RowError) (rowNumber : Nat) : Option Record :=
  if rowNumber ∈ rejectedRows then none
  else
    match canonicalSchema with
    | some cs =>
      let errorCols := (rowError.map (fun re => re.errors.map CellError.column)).getD []
      let isCoerced := (rowError.map (fun re => re.action == RowAction.coerced)).getD false
      some (transformCells rt row (targetToSource mr) isCoerced errorCols cs.columns
        ([] : Record))
    | none =>
      some (mr.mappings.foldl
        (fun (acc : Record) m =>
          match m.targetColumn with
          | some tc => recordSet acc tc (rawToValue (rowGet row m.sourceColumn))
          | none => acc)
        ([] : Record))

/-- Row numbers whose recorded action is rejected. -/
def rejectedRowsOf (vres : Option ValidationResult) : List Nat :=
  match vres with
  | some v => (v.errors.filter (fun re => re.action = RowAction.rejected)).map RowError.row
  | none => []

/-- The rowErrorsMap lookup of processOutputJob (a later entry for the same
row number overwrites an earlier one, as Map.set does). -/
def rowErrorFor (vres : Option ValidationResult) (n : Nat) : Option RowError :=
  match vres with
  | some v => v.errors.foldl (fun acc re => if re.row = n then some re else acc) none
  | none => none

def buildOutputRowsAux (rt : JsRuntime) (mr : MappingResult)
    (canonicalSchema : Option CanonicalSchema) (vres : Option ValidationResult) :
    Nat → List Row → List Record
  | _, [] => []
  | i, row :: rest =>
    let n := i + 1
    match transformRow rt row mr canonicalSchema (rejectedRowsOf vres) (rowErrorFor vres n) n with
    | some rec => rec :: buildOutputRowsAux rt mr canonicalSchema vres (i + 1) rest
    | none => buildOutputRowsAux rt mr canonicalSchema vres (i + 1) rest

/-- The output row assembly loop of processOutputJob. -/
def buildOutputRows (rt : JsRuntime) (mr : MappingResult)
    (canonicalSchema : Option CanonicalSchema) (vres : Option ValidationResult)
    (rows : List Row) : List Record :=
  buildOutputRowsAux rt mr canonicalSchema vres 0 rows

/-- The output column sequence: canonical order with a schema, else the
mapped target names. -/
def outputColumns (canonicalSchema : Option CanonicalSchema) (mr : MappingResult) :
    List String :=
  match canonicalSchema with
  | some cs => cs.columns.map ColumnDefinition.name
  | none => mr.mappings.filterMap ColumnMapping.targetColumn

/-! ### Delimiter detection (csv-parser.ts, detectDelimiter)

The model input is the text read from the first 4 KiB chunk of the file. -/

def COMMON_DELIMITERS : List Char := [',', ';', '\t', '|']

/-- The source counts each candidate on the first line, sorts the pairs by
count descending (a stable sort, so candidate order breaks ties) and takes
the head; that equals this left fold keeping the first strict maximum. -/
def bestDelimPair (line : List Char) : Char × Nat :=
  [';', '\t', '|'].foldl
    (fun acc d => if line.count d > acc.2 then (d, line.count d) else acc)
    (',', line.count ',')

/-- Embedding of detectDelimiter on the first-4-KiB text: empty data or an
empty first line resolve to comma, otherwise the best candidate with at
least one occurrence, defaulting to comma. -/
def detectDelimiter (data : String) : Char :=
  if data = "" then ','
  else
    let firstLine := data.data.takeWhile (fun c => c ≠ '\n')
    if firstLine = [] then ','
    else
      let best := bestDelimPair firstLine
      if 0 < best.2 then best.1 else ','

/-! ### Streaming parse (csv-parser.ts, parseCSV)

The csv-parse library is driven by events: one record event per data row
and an error event on malformed input (with relax_column_count set, short
and long rows are padded or truncated and produce records, so error events
correspond to malformed rows such as bad quoting). parseCSV folds these
events: each record bumps the total count and is sampled up to sampleSize;
the error handler pushes a row-and-message entry onto parseErrors and then
rejects the promise, so a rejection discards everything recorded. -/

inductive ParseEvent where
  | record (r : Row)
  | failure (msg : String)
deriving Repr

structure ParseOutput where
  columns : List String
  rows : List Row
  totalRowCount : Nat
  parseErrors : List (Nat × String)
  detectedDelimiter : Char
deriving Repr

structure ParseState where
  columns : List String
  rows : List Row
  totalRowCount : Nat
  parseErrors : List (Nat × String)
deriving Repr

/-- The on_record callback: count, capture the header from the first
record, and retain samples below the cap (none models Infinity). -/
def stepRecord (sampleSize : Option Nat) (st : ParseState) (r : Row) : ParseState :=
  { columns := if st.columns = [] then r.map Prod.fst else st.columns
    rows :=
      match sampleSize with
      | some n => if st.rows.length < n then st.rows ++ [r] else st.rows
      | none => st.rows ++ [r]
    totalRowCount := st.totalRowCount + 1
    parseErrors := st.parseErrors }

def parseCSVEvents (sampleSize : Option Nat) (delim : Char) :
    ParseState → List ParseEvent → Except String ParseOutput
  | st, [] => Except.ok ⟨st.columns, st.rows, st.totalRowCount, st.parseErrors, delim⟩
  | st, ParseEvent.record r :: rest =>
    parseCSVEvents sampleSize delim (stepRecord sampleSize st r) rest
  | _st, ParseEvent.failure m :: _ =>
    -- the error handler records (totalRowCount, m) in parseErrors and then
    -- rejects the promise, so the recorded entry never reaches a caller
    Except.error m

/-- parseCSV over the event stream the csv-parse library produces for the
file, starting from the empty state. -/
def parseCSV (sampleSize : Option Nat) (delim : Char) (events : List ParseEvent) :
    Except String ParseOutput :=
  parseCSVEvents sampleSize delim ⟨[], [], 0, []⟩ events

inductive IngestionStatus where
  | pending | parsing | inferring | mapping | awaiting_review
  | validating | outputting | complete | failed
deriving DecidableEq, Repr

/-- Status written by processParseJob: inferring when parseCSV resolves,
failed when it rejects (the catch block of the worker). -/
def processParseResult (res : Except String ParseOutput) : IngestionStatus :=
  match res with
  | Except.ok _ => IngestionStatus.inferring
  | Except.error _ => IngestionStatus.failed

/-! ### Type inference (type-inference.ts) -/

/-- Embedding of the anchored ISO date regex. -/
def isoDateExact (cs : List Char) : Bool :=
  match cs with
  | [a, b, c, d, '-', e, f, '-', g, h] => [a, b, c, d, e, f, g, h].all Char.isDigit
  | _ => false

/-- Embedding of the ISO datetime regex, a prefix match. -/
def isoDateTimePre (cs : List Char) : Bool :=
  match cs with
  | a :: b :: c :: d :: '-' :: e :: f :: '-' :: g :: h :: sep :: i1 :: i2 :: ':'
      :: j1 :: j2 :: ':' :: k1 :: k2 :: _ =>
    ([a, b, c, d, e, f, g, h, i1, i2, j1, j2, k1, k2].all Char.isDigit) ∧ (sep = 'T' ∨ sep = ' ')
  | _ => false

/-- isEmail of type-inference.ts (the same pattern literal as coercion). -/
def isEmail (s : String) : Bool := emailOk s

/-- isUUID of type-inference.ts. -/
def isUUID (s : String) : Bool := uuidOk s

/-- isUrl of type-inference.ts. -/
def isUrl (s : String) : Bool := urlRegexOk s

/-- isISODate: the anchored regex plus Date validity. -/
def isISODate (rt : JsRuntime) (s : String) : Bool :=
  isoDateExact s.data ∧ (rt.dateParse s).isSome

/-- isISODateTime: the prefix regex plus Date validity. -/
def isISODateTime (rt : JsRuntime) (s : String) : Bool :=
  isoDateTimePre s.data ∧ (rt.dateParse s).isSome

/-- isBoolean of type-inference.ts. -/
def isBoolean (s : String) : Bool :=
  BOOLEAN_TRUE.contains (jsToLower s) ∨ BOOLEAN_FALSE.contains (jsToLower s)

/-- isInteger: the anchored regex; the subsequent parseInt and
Number.isInteger checks always succeed on a digit run. -/
def isInteger (s : String) : Bool :=
  match s.data with
  | '-' :: rest => rest ≠ [] ∧ rest.all Char.isDigit
  | cs => cs ≠ [] ∧ cs.all Char.isDigit

/-- isFloat: the anchored regex (an optional sign, optional integer part,
at most one dot, mandatory final digit run); the finiteness check only
fails on overflow, which the exact embedding does not model. -/
def isFloat (s : String) : Bool :=
  let body :=
    match s.data with
    | '-' :: rest => rest
    | cs => cs
  match body.splitOn '.' with
  | [ds] => ds ≠ [] ∧ ds.all Char.isDigit
  | [d1, d2] => d1.all Char.isDigit ∧ d2 ≠ [] ∧ d2.all Char.isDigit
  | _ => false

/-- isJSON of type-inference.ts: JSON.parse succeeds with an object. -/
def isJSON (rt : JsRuntime) (s : String) : Bool := rt.jsonObjOk s

/-- Per-sample detection order, most specific type first. -/
def detectType (rt : JsRuntime) (value : String) : ColumnType :=
  let trimmed := jsTrim value
  if isUUID trimmed then ColumnType.uuid
  else if isEmail trimmed then ColumnType.email
  else if isUrl trimmed then ColumnType.url
  else if isISODateTime rt trimmed then ColumnType.datetime
  else if isISODate rt trimmed then ColumnType.date
  else if isBoolean trimmed then ColumnType.boolean
  else if isInteger trimmed then ColumnType.integer
  else if isFloat trimmed then ColumnType.float
  else if isJSON rt trimmed then ColumnType.json
  else ColumnType.string

structure VoteState where
  votes : ColumnType → Nat
  nullCount : Nat
  uniqueValues : List String
  sampleValues : List String

/-- The per-sample body of the voting loop of inferColumnType. -/
def voteStep (rt : JsRuntime) (st : VoteState) (val : Option String) : VoteState :=
  if isEmptyRaw val then { st with nullCount := st.nullCount + 1 }
  else
    let str := jsTrim (val.getD "")
    let t := detectType rt str
    { votes := fun u => if u = t then st.votes u + 1 else st.votes u
      nullCount := st.nullCount
      uniqueValues := if str ∈ st.uniqueValues then st.uniqueValues else st.uniqueValues ++ [str]
      sampleValues :=
        if st.sampleValues.length < 5 ∧ str ∉ st.sampleValues then st.sampleValues ++ [str]
        else st.sampleValues }

/-- Key insertion order of the votes record literal, which Object.entries
replays when searching for the dominant type. -/
def typeOrder : List ColumnType :=
  [ColumnType.string, ColumnType.integer, ColumnType.float, ColumnType.boolean,
   ColumnType.date, ColumnType.datetime, ColumnType.email, ColumnType.uuid,
   ColumnType.url, ColumnType.json]

/-- The dominant-type search: a strictly greater count replaces the best. -/
def modeFold (votes : ColumnType → Nat) : ColumnType × Nat :=
  typeOrder.foldl (fun acc t => if votes t > acc.2 then (t, votes t) else acc)
    (ColumnType.string, 0)

/-- Embedding of inferColumnType, including the integer-to-float
promotion and the confidence quotient. -/
def inferColumnType (rt : JsRuntime) (samples : List (Option String)) : InferredColumn :=
  let st := samples.foldl (voteStep rt) ⟨fun _ => 0, 0, [], []⟩
  let totalCount := samples.length
  let nonNullCount := totalCount - st.nullCount
  let bestPair := modeFold st.votes
  let promoted :=
    if bestPair.1 = ColumnType.integer ∧ 0 < st.votes ColumnType.float then
      (ColumnType.float, st.votes ColumnType.integer + st.votes ColumnType.float)
    else bestPair
  { name := ""
    inferredType := promoted.1
    confidence := if 0 < nonNullCount then (promoted.2 : ℚ) / (nonNullCount : ℚ) else 0
    nullable := 0 < st.nullCount
    uniqueRatio := if 0 < nonNullCount then (st.uniqueValues.length : ℚ) / (nonNullCount : ℚ) else 0
    sampleValues := st.sampleValues
    nullCount := st.nullCount
    totalCount := totalCount }

/-- Embedding of inferSchema: per-column voting over the sampled rows. -/
def inferSchema (rt : JsRuntime) (columns : List String) (rows : List Row)
    (totalRowCount parseErrorsCount : Nat) : InferredSchema :=
  { columns := columns.map (fun colName =>
      { inferColumnType rt (rows.map (fun r => rowGet r colName)) with name := colName })
    rowCount := totalRowCount
    parseErrors := parseErrorsCount }

/-! ### Column mapping (column-mapping.ts)

The fuzzy strategy calls stringSimilarity from the string-similarity-js
package; that third-party function is a parameter sim of the embedding, so
the mapping theorems hold for every similarity function. -/

/-- Embedding of normalize: lowercase, strip separators, strip everything
outside [a-z0-9]; the two replacements compose to a single filter. -/
def normalize (str : String) : String :=
  String.mk ((jsToLower str).data.filter (fun c => ('a' ≤ c ∧ c ≤ 'z') ∨ c.isDigit))

structure MappingCandidate where
  targetColumn : String
  method : MappingMethod
  confidence : ℚ
deriving DecidableEq, Repr

def findExactMatch (sourceColumn : String) (targetColumns : List ColumnDefinition) :
    Option MappingCandidate :=
  match targetColumns.find? (fun t => t.name == sourceColumn) with
  | some t => some ⟨t.name, MappingMethod.exact, 1⟩
  | none => none

def findCaseInsensitiveMatch (sourceColumn : String)
    (targetColumns : List ColumnDefinition) : Option MappingCandidate :=
  match targetColumns.find? (fun t => jsToLower t.name == jsToLower sourceColumn) with
  | some t => some ⟨t.name, MappingMethod.case_insensitive, mkRat 95 100⟩
  | none => none

def findAliasMatch (sourceColumn : String) (targetColumns : List ColumnDefinition) :
    Option MappingCandidate :=
  match targetColumns.find? (fun t => t.aliases.any (fun a =>
      jsToLower a == jsToLower sourceColumn || normalize a == normalize sourceColumn)) with
  | some t => some ⟨t.name, MappingMethod.alias, mkRat 9 10⟩
  | none => none

/-- Inner accumulation of findFuzzyMatch over one target and its aliases. -/
def fuzzyFold (sim : String → String → ℚ) (sourceNormalized : String)
    (acc : Option MappingCandidate × ℚ) (t : ColumnDefinition) :
    Option MappingCandidate × ℚ :=
  let score := sim sourceNormalized (normalize t.name)
  let acc1 :=
    if score > acc.2 ∧ score ≥ mkRat 1 2 then
      ((some ⟨t.name, MappingMethod.fuzzy, score⟩ : Option MappingCandidate), score)
    else acc
  t.aliases.foldl
    (fun acc2 a =>
      let s2 := sim sourceNormalized (normalize a)
      if s2 > acc2.2 ∧ s2 ≥ mkRat 1 2 then
        ((some ⟨t.name, MappingMethod.fuzzy, s2⟩ : Option MappingCandidate), s2)
      else acc2)
    acc1

def findFuzzyMatch (sim : String → String → ℚ) (sourceColumn : String)
    (targetColumns : List ColumnDefinition) : Option MappingCandidate :=
  (targetColumns.foldl (fuzzyFold sim (normalize sourceColumn)) (none, 0)).1

/-- Strategy precedence of mapColumns: exact, case-insensitive, alias,
fuzzy; the first producing a candidate wins. -/
def pickCandidate (sim : String → String → ℚ) (sourceColumn : String)
    (availableTargets : List ColumnDefinition) : Option MappingCandidate :=
  match findExactMatch sourceColumn availableTargets with
  | some c => some c
  | none =>
    match findCaseInsensitiveMatch sourceColumn availableTargets with
    | some c => some c
    | none =>
      match findAliasMatch sourceColumn availableTargets with
      | some c => some c
      | none => findFuzzyMatch sim sourceColumn availableTargets

/-- Stable insertion keeping existing entries with greater-or-equal
confidence in front; folding it right is the stable descending sort the
source applies to alternative candidates. -/
def insertDesc (x : String × ℚ) : List (String × ℚ) → List (String × ℚ)
  | [] => [x]
  | y :: ys => if y.2 ≥ x.2 then y :: insertDesc x ys else x :: y :: ys

def sortDesc (l : List (String × ℚ)) : List (String × ℚ) :=
  l.foldr insertDesc []

/-- The alternative candidates collected for an ambiguous mapping: every
still-available target other than the chosen one scoring at least 0.4,
sorted by confidence descending (stable). -/
def alternativesFor (sim : String → String → ℚ) (sourceCol : InferredColumn)
    (availableTargets : List ColumnDefinition) (c : MappingCandidate)
    (confidenceThreshold : ℚ) : List (String × ℚ) :=
  if c.confidence < confidenceThreshold then
    sortDesc ((availableTargets.filter (fun t => t.name ≠ c.targetColumn)).filterMap
      (fun t =>
        let score := sim (normalize sourceCol.name) (normalize t.name)
        if score ≥ mkRat 2 5 then some (t.name, score) else none))
  else []

/-- Per-source-column body of the mapColumns loop, threading the set of
already-bound targets (the source computes the alternatives list before
inspecting the candidate; it is only used when a candidate exists). -/
def mapColumnsStep (sim : String → String → ℚ) (canonicalSchema : CanonicalSchema)
    (confidenceThreshold : ℚ) (acc : List String × List ColumnMapping)
    (sourceCol : InferredColumn) : List String × List ColumnMapping :=
  let availableTargets := canonicalSchema.columns.filter
    (fun t => ¬ acc.1.contains t.name)
  match pickCandidate sim sourceCol.name availableTargets with
  | some c =>
    let alternatives := alternativesFor sim sourceCol availableTargets c
      confidenceThreshold
    (acc.1 ++ [c.targetColumn],
     acc.2 ++ [{ sourceColumn := sourceCol.name, targetColumn := some c.targetColumn,
                 method := c.method, confidence := c.confidence,
                 alternativeMappings :=
                   if alternatives ≠ [] then some (alternatives.take 3) else none }])
  | none =>
    (acc.1,
     acc.2 ++ [{ sourceColumn := sourceCol.name, targetColumn := none,
                 method := MappingMethod.unmapped, confidence := 0 }])

/-- Embedding of mapColumns; the default confidence threshold is the
config default 0.8. -/
def mapColumns (sim : String → String → ℚ) (inferredSchema : InferredSchema)
    (canonicalSchema : CanonicalSchema) (confidenceThreshold : ℚ := mkRat 4 5) :
    MappingResult :=
  let res := inferredSchema.columns.foldl
    (mapColumnsStep sim canonicalSchema confidenceThreshold) ([], [])
  let ambiguousMappings := res.2.filter (fun m =>
    (decide (m.confidence < confidenceThreshold) && decide ((0 : ℚ) < m.confidence)) ||
    (m.method == MappingMethod.unmapped && canonicalSchema.strict))
  { mappings := res.2
    requiresReview := decide (0 < ambiguousMappings.length)
    ambiguousMappings := ambiguousMappings }

/-! ### Human decisions (column-mapping.ts, applyHumanDecisions) -/

structure HumanDecision where
  sourceColumn : String
  targetColumn : Option String
deriving DecidableEq, Repr

/-- The Map built from the decisions; a later decision for the same source
column overwrites an earlier one. -/
def decisionLookup (decisions : List HumanDecision) (s : String) : Option (Option String) :=
  decisions.foldl (fun acc d => if d.sourceColumn = s then some d.targetColumn else acc) none

/-- Embedding of applyHumanDecisions: decided mappings become manual with
confidence 1; the result unconditionally clears requiresReview and the
ambiguous list. -/
def applyHumanDecisions (mr : MappingResult) (decisions : List HumanDecision) :
    MappingResult :=
  { mappings := mr.mappings.map (fun m =>
      match decisionLookup decisions m.sourceColumn with
      | some tc =>
        { m with targetColumn := tc, method := MappingMethod.manual,
                 confidence := 1, alternativeMappings := none }
      | none => m)
    requiresReview := false
    ambiguousMappings := [] }

/-! ### The resolve endpoint (POST /ingestions/:id/resolve) -/

structure IngestionStub where
  status : IngestionStatus
  mappingResult : Option MappingResult
deriving DecidableEq, Repr

inductive ResolveOutcome where
  /-- 400 reply: ingestion is not awaiting review; nothing is written. -/
  | badStatus (currentStatus : IngestionStatus)
  /-- The non-null assertion on mappingResult failed; nothing is written. -/
  | thrown
  /-- Decisions applied: the mapping result is persisted and a map-resume
  job is enqueued; the handler replies with status resumed. -/
  | resumed (updated : IngestionStub)
deriving DecidableEq, Repr

/-- Embedding of the resolve route handler: the only synchronous
precondition it checks is the awaiting_review status. -/
def resolveRoute (ing : IngestionStub) (decisions : List HumanDecision) :
    ResolveOutcome :=
  if ing.status ≠ IngestionStatus.awaiting_review then ResolveOutcome.badStatus ing.status
  else
    match ing.mappingResult with
    | none => ResolveOutcome.thrown
    | some mr =>
      ResolveOutcome.resumed ⟨ing.status, some (applyHumanDecisions mr decisions)⟩

/-! ### Decision journal writes per stage

Each worker is modelled by the sequence of decision-log operations it
performs against the journal of one ingestion: validate and output first
delete their prior entries, the other stages only insert. Payload details
are deterministic functions of the stage inputs and are elided; an entry
is its stage and decision type. -/

inductive Stage where
  | parse | infer | map | validate | output
deriving DecidableEq, Repr

structure JournalEntry where
  stage : Stage
  decisionType : String
deriving DecidableEq, Repr

/-- processParseJob appends one parse_complete entry and purges nothing. -/
def parseJournalStep (j : List JournalEntry) : List JournalEntry :=
  j ++ [⟨Stage.parse, "parse_complete"⟩]

/-- processInferJob appends one type_inference entry and purges nothing. -/
def inferJournalStep (j : List JournalEntry) : List JournalEntry :=
  j ++ [⟨Stage.infer, "type_inference"⟩]

/-- processMapJob (initial mapping) appends one entry per mapping and
purges nothing. -/
def mapJournalStep (mr : MappingResult) (j : List JournalEntry) : List JournalEntry :=
  j ++ mr.mappings.map (fun m =>
    ⟨Stage.map, if m.targetColumn.isSome then "column_mapped" else "column_unmapped"⟩)

/-- processValidateJob deletes every prior validate entry, then appends
validation_complete. -/
def validateJournalStep (j : List JournalEntry) : List JournalEntry :=
  (j.filter (fun e => decide (e.stage ≠ Stage.validate))) ++
    [⟨Stage.validate, "validation_complete"⟩]

/-- processOutputJob deletes every prior output entry, then appends
output_complete. -/
def outputJournalStep (j : List JournalEntry) : List JournalEntry :=
  (j.filter (fun e => decide (e.stage ≠ Stage.output))) ++
    [⟨Stage.output, "output_complete"⟩]

/-- Journal entries belonging to one stage. -/
def stageEntries (s : Stage) (j : List JournalEntry) : List JournalEntry :=
  j.filter (fun e => decide (e.stage = s))

/-! ## Supporting lemmas -/

lemma assocGet_map_set {β : Type} (r : List (String × β)) (k : String) (v : β) :
    assocGet (r.map (fun p => if p.1 = k then (k, v) else p)) k =
      if (assocGet r k).isSome then some v else none := by
  induction r with
  | nil => simp [assocGet]
  | cons p r ih =>
    obtain ⟨k2, w⟩ := p
    simp only [List.map_cons]
    by_cases hk : k2 = k
    · have hf : (if ((k2, w) : String × β).1 = k then (k, v) else (k2, w)) = (k, v) :=
        if_pos hk
      rw [hf]
      subst hk
      simp [assocGet]
    · have hf : (if ((k2, w) : String × β).1 = k then (k, v) else (k2, w)) = (k2, w) :=
        if_neg hk
      rw [hf]
      simp [assocGet, hk, ih]

lemma assocGet_append_single {β : Type} (r : List (String × β)) (k k2 : String) (v : β) :
    assocGet (r ++ [(k, v)]) k2 =
      if (assocGet r k2).isSome then assocGet r k2
      else if k = k2 then some v else none := by
  induction r with
  | nil => simp [assocGet]
  | cons p r ih =>
    obtain ⟨k3, w⟩ := p
    by_cases hk : k3 = k2
    · subst hk
      simp [assocGet]
    · simp [assocGet, hk, ih]

lemma assocGet_map_set_ne {β : Type} (r : List (String × β)) (k k2 : String) (v : β)
    (h : k2 ≠ k) :
    assocGet (r.map (fun p => if p.1 = k then (k, v) else p)) k2 = assocGet r k2 := by
  induction r with
  | nil => simp
  | cons p r ih =>
    obtain ⟨k3, w⟩ := p
    simp only [List.map_cons]
    by_cases hk : k3 = k
    · have hf : (if ((k3, w) : String × β).1 = k then (k, v) else (k3, w)) = (k, v) :=
        if_pos hk
      rw [hf]
      have hne : ¬ (k = k2) := fun hc => h hc.symm
      have hne2 : ¬ (k3 = k2) := by rw [hk]; exact hne
      simp [assocGet, hne, hne2, ih]
    · have hf : (if ((k3, w) : String × β).1 = k then (k, v) else (k3, w)) = (k3, w) :=
        if_neg hk
      rw [hf]
      by_cases hk2 : k3 = k2
      · subst hk2
        simp [assocGet]
      · simp [assocGet, hk2, ih]

lemma recordGet_set_self (r : Record) (k : String) (v : Value) :
    recordGet (recordSet r k v) k = some v := by
  unfold recordSet recordGet
  split
  · rename_i h
    rw [assocGet_map_set, if_pos h]
  · rename_i h
    rw [assocGet_append_single]
    have hnone : (assocGet r k).isSome = false := by
      cases hr : (assocGet r k).isSome with
      | true => exact absurd hr h
      | false => rfl
    rw [hnone]
    simp

lemma recordGet_set_ne (r : Record) (k k2 : String) (v : Value) (h : k2 ≠ k) :
    recordGet (recordSet r k v) k2 = recordGet r k2 := by
  unfold recordSet recordGet
  split
  · exact assocGet_map_set_ne r k k2 v h
  · rw [assocGet_append_single]
    cases hr : (assocGet r k2).isSome with
    | true => simp
    | false =>
      have hne : ¬ (k = k2) := fun hc => h (Eq.symm hc)
      cases hg : assocGet r k2 with
      | none => simp [hr, hne, hg]
      | some w => rw [hg] at hr; simp at hr

lemma validatorStep_errors (rt : JsRuntime) (n : Nat) (c : ColumnDefinition)
    (cv : Value) (acc : List CellError × Seen) (v : Validator) :
    (validatorStep rt n c cv acc v).1 = acc.1 ∨
    ∃ e, (validatorStep rt n c cv acc v).1 = acc.1 ++ [e] ∧ e.column = c.name ∧
      e.errorType = ErrorKind.validation_failed := by
  cases v <;> unfold validatorStep <;> dsimp only <;> split_ifs <;>
    first
      | (left; rfl)
      | (right; exact ⟨_, rfl, rfl, rfl⟩)

lemma validatorFold_errors_col (rt : JsRuntime) (n : Nat) (c : ColumnDefinition)
    (cv : Value) (vs : List Validator) (acc : List CellError × Seen)
    (hacc : ∀ e ∈ acc.1, e.column = c.name) :
    ∀ e ∈ (vs.foldl (validatorStep rt n c cv) acc).1, e.column = c.name := by
  induction vs generalizing acc with
  | nil => exact hacc
  | cons v vs ih =>
    rw [List.foldl_cons]
    refine ih _ ?_
    intro e he
    rcases validatorStep_errors rt n c cv acc v with h1 | ⟨e2, h2, hcol, _⟩
    · rw [h1] at he
      exact hacc e he
    · rw [h2] at he
      rcases List.mem_append.mp he with hmem | hmem
      · exact hacc e hmem
      · rw [List.mem_singleton.mp hmem]
        exact hcol

lemma validateCell_errors_col (rt : JsRuntime) (row : Row) (n : Nat)
    (t2s : String → Option String) (sn : Seen) (c : ColumnDefinition) :
    ∀ e ∈ (validateCell rt row n t2s sn c).2.1, e.column = c.name := by
  unfold validateCell
  dsimp only
  split
  · intro e he
    rw [List.mem_singleton.mp he]
  · split
    · intro e he
      rw [List.mem_singleton.mp he]
    · exact validatorFold_errors_col rt n c _ c.validators ([], sn)
        (fun e he => absurd he (List.not_mem_nil e))

/-- One step of the validateCells fold. -/
lemma validateCells_cons (rt : JsRuntime) (row : Row) (n : Nat)
    (t2s : String → Option String) (c : ColumnDefinition) (cols : List ColumnDefinition)
    (acc : Record × List CellError × Seen) :
    validateCells rt row n t2s (c :: cols) acc =
      validateCells rt row n t2s cols
        (recordSet acc.1 c.name (validateCell rt row n t2s acc.2.2 c).1,
         acc.2.1 ++ (validateCell rt row n t2s acc.2.2 c).2.1,
         (validateCell rt row n t2s acc.2.2 c).2.2) := rfl

/-- Columns whose name is not processed leave their record entry and their
error slice of the journal untouched. -/
lemma validateCells_pres (rt : JsRuntime) (row : Row) (n : Nat)
    (t2s : String → Option String) (cols : List ColumnDefinition)
    (acc : Record × List CellError × Seen) (nm : String)
    (h : nm ∉ cols.map ColumnDefinition.name) :
    recordGet (validateCells rt row n t2s cols acc).1 nm = recordGet acc.1 nm ∧
    (validateCells rt row n t2s cols acc).2.1.filter (fun e => decide (e.column = nm)) =
      acc.2.1.filter (fun e => decide (e.column = nm)) := by
  induction cols generalizing acc with
  | nil => exact ⟨rfl, rfl⟩
  | cons c cols ih =>
    rw [List.map_cons, List.mem_cons] at h
    push_neg at h
    rw [validateCells_cons]
    obtain ⟨ihl, ihr⟩ := ih _ h.2
    constructor
    · rw [ihl, recordGet_set_ne _ _ _ _ h.1]
    · rw [ihr, List.filter_append]
      have hnil : (validateCell rt row n t2s acc.2.2 c).2.1.filter
          (fun e => decide (e.column = nm)) = [] := by
        rw [List.filter_eq_nil_iff]
        intro e he
        have := validateCell_errors_col rt row n t2s acc.2.2 c e he
        simp [this]
        intro hc
        exact h.1 (hc ▸ this ▸ rfl)
      rw [hnil, List.append_nil]

/-- For a schema whose column names are distinct, the record entry and the
error slice of any member column come from its own validateCell call, run
at some intermediate seen state. -/
lemma validateCells_lookup (rt : JsRuntime) (row : Row) (n : Nat)
    (t2s : String → Option String) (cols : List ColumnDefinition)
    (acc : Record × List CellError × Seen) (c : ColumnDefinition)
    (hc : c ∈ cols) (hnd : (cols.map ColumnDefinition.name).Nodup) :
    ∃ sn,
      recordGet (validateCells rt row n t2s cols acc).1 c.name =
        some (validateCell rt row n t2s sn c).1 ∧
      (validateCells rt row n t2s cols acc).2.1.filter
          (fun e => decide (e.column = c.name)) =
        acc.2.1.filter (fun e => decide (e.column = c.name)) ++
          (validateCell rt row n t2s sn c).2.1 := by
  induction cols generalizing acc with
  | nil => cases hc
  | cons d cols ih =>
    rw [List.map_cons, List.nodup_cons] at hnd
    rw [validateCells_cons]
    rcases List.mem_cons.mp hc with hceq | hctail
    · subst hceq
      refine ⟨acc.2.2, ?_, ?_⟩
      · rw [(validateCells_pres rt row n t2s cols _ c.name hnd.1).1,
            recordGet_set_self]
      · rw [(validateCells_pres rt row n t2s cols _ c.name hnd.1).2,
            List.filter_append]
        have hall : (validateCell rt row n t2s acc.2.2 c).2.1.filter
            (fun e => decide (e.column = c.name)) =
            (validateCell rt row n t2s acc.2.2 c).2.1 := by
          rw [List.filter_eq_self]
          intro e he
          simp [validateCell_errors_col rt row n t2s acc.2.2 c e he]
        rw [hall]
    · have hname : c.name ≠ d.name := by
        intro hcd
        exact hnd.1 (hcd ▸ List.mem_map_of_mem ColumnDefinition.name hctail)
      obtain ⟨sn, h1, h2⟩ := ih _ hctail hnd.2
      refine ⟨sn, h1, ?_⟩
      rw [h2, List.filter_append]
      have hnil : (validateCell rt row n t2s acc.2.2 d).2.1.filter
          (fun e => decide (e.column = c.name)) = [] := by
        rw [List.filter_eq_nil_iff]
        intro e he
        have := validateCell_errors_col rt row n t2s acc.2.2 d e he
        simp [this]
        intro hcEq
        exact hname (hcEq ▸ this ▸ rfl)
      rw [hnil, List.append_nil]

/-- One step of the transformCells fold. -/
lemma transformCells_cons (rt : JsRuntime) (row : Row) (t2s : String → Option String)
    (ic : Bool) (ec : List String) (c : ColumnDefinition) (cols : List ColumnDefinition)
    (acc : Record) :
    transformCells rt row t2s ic ec (c :: cols) acc =
      transformCells rt row t2s ic ec cols
        (recordSet acc c.name (transformCell rt row t2s ic ec c)) := rfl

lemma transformCells_pres (rt : JsRuntime) (row : Row) (t2s : String → Option String)
    (ic : Bool) (ec : List String) (cols : List ColumnDefinition) (acc : Record)
    (nm : String) (h : nm ∉ cols.map ColumnDefinition.name) :
    recordGet (transformCells rt row t2s ic ec cols acc) nm = recordGet acc nm := by
  induction cols generalizing acc with
  | nil => rfl
  | cons c cols ih =>
    rw [List.map_cons, List.mem_cons] at h
    push_neg at h
    rw [transformCells_cons, ih _ h.2, recordGet_set_ne _ _ _ _ h.1]

/-- Each member of a distinct-name schema appears in the transformed record
with exactly its transformCell value. -/
lemma transformCells_lookup (rt : JsRuntime) (row : Row) (t2s : String → Option String)
    (ic : Bool) (ec : List String) (cols : List ColumnDefinition) (acc : Record)
    (c : ColumnDefinition) (hc : c ∈ cols)
    (hnd : (cols.map ColumnDefinition.name).Nodup) :
    recordGet (transformCells rt row t2s ic ec cols acc) c.name =
      some (transformCell rt row t2s ic ec c) := by
  induction cols generalizing acc with
  | nil => cases hc
  | cons d cols ih =>
    rw [List.map_cons, List.nodup_cons] at hnd
    rw [transformCells_cons]
    rcases List.mem_cons.mp hc with hceq | hctail
    · subst hceq
      rw [transformCells_pres rt row t2s ic ec cols _ c.name hnd.1,
          recordGet_set_self]
    · exact ih _ hctail hnd.2

lemma validatorStep_null (rt : JsRuntime) (n : Nat) (c : ColumnDefinition)
    (acc : List CellError × Seen) (v : Validator) :
    (validatorStep rt n c Value.vNull acc v).1 = acc.1 := by
  cases v <;> unfold validatorStep <;> dsimp only <;> simp [runValidator]

lemma validatorFold_null (rt : JsRuntime) (n : Nat) (c : ColumnDefinition)
    (vs : List Validator) (acc : List CellError × Seen) :
    (vs.foldl (validatorStep rt n c Value.vNull) acc).1 = acc.1 := by
  induction vs generalizing acc with
  | nil => rfl
  | cons v vs ih =>
    rw [List.foldl_cons]
    rw [ih]
    exact validatorStep_null rt n c acc v

lemma validatorFold_kinds (rt : JsRuntime) (n : Nat) (c : ColumnDefinition)
    (cv : Value) (vs : List Validator) (acc : List CellError × Seen)
    (hacc : ∀ e ∈ acc.1, e.errorType = ErrorKind.validation_failed) :
    ∀ e ∈ (vs.foldl (validatorStep rt n c cv) acc).1,
      e.errorType = ErrorKind.validation_failed := by
  induction vs generalizing acc with
  | nil => exact hacc
  | cons v vs ih =>
    rw [List.foldl_cons]
    refine ih _ ?_
    intro e he
    rcases validatorStep_errors rt n c cv acc v with h1 | ⟨e2, h2, _, hkind⟩
    · rw [h1] at he
      exact hacc e he
    · rw [h2] at he
      rcases List.mem_append.mp he with hmem | hmem
      · exact hacc e hmem
      · rw [List.mem_singleton.mp hmem]
        exact hkind

/-- Empty cell of a required column: required_missing is pushed before the
emptiness cascade is consulted, and the stored value is the default when
one is declared, else null. -/
lemma validateCell_empty_required (rt : JsRuntime) (row : Row) (n : Nat)
    (t2s : String → Option String) (sn : Seen) (c : ColumnDefinition)
    (hreq : c.required = true) (hraw : isEmptyRaw (rawOf row t2s c) = true) :
    (validateCell rt row n t2s sn c).1 = c.default.getD Value.vNull ∧
    ((validateCell rt row n t2s sn c).2.1).map CellError.errorType =
      [ErrorKind.required_missing] := by
  unfold validateCell
  simp [hreq, hraw]

/-- Empty cell of a non-required nullable column: null, no error. -/
lemma validateCell_empty_nullable (rt : JsRuntime) (row : Row) (n : Nat)
    (t2s : String → Option String) (sn : Seen) (c : ColumnDefinition)
    (hreq : c.required = false) (hnul : c.nullable = true)
    (hraw : isEmptyRaw (rawOf row t2s c) = true) :
    (validateCell rt row n t2s sn c).1 = Value.vNull ∧
    (validateCell rt row n t2s sn c).2.1 = [] := by
  unfold validateCell
  have hcoerce : coerceValue rt (rawOf row t2s c) c.type c =
      ⟨true, Value.vNull, none⟩ := by
    unfold coerceValue
    rw [if_pos hraw, if_pos hnul]
  simp only [hreq, hraw, Bool.false_eq_true, false_and, if_false, hcoerce]
  exact ⟨rfl, validatorFold_null rt n c c.validators ([], sn)⟩

/-- Empty cell of a non-required non-nullable column: the default when one
is declared, else null, and any error pushed comes from a declared
validator run against that resolved value. -/
lemma validateCell_empty_notnull (rt : JsRuntime) (row : Row) (n : Nat)
    (t2s : String → Option String) (sn : Seen) (c : ColumnDefinition)
    (hreq : c.required = false) (hnul : c.nullable = false)
    (hraw : isEmptyRaw (rawOf row t2s c) = true) :
    (validateCell rt row n t2s sn c).1 = c.default.getD Value.vNull ∧
    ∀ e ∈ (validateCell rt row n t2s sn c).2.1,
      e.errorType = ErrorKind.validation_failed := by
  unfold validateCell
  have hcoerce : coerceValue rt (rawOf row t2s c) c.type c =
      ⟨true, c.default.getD Value.vNull, none⟩ := by
    unfold coerceValue
    rw [if_pos hraw, if_neg (by rw [hnul]; exact Bool.false_ne_true)]
    cases hd : c.default with
    | some d => simp [hd]
    | none => simp [hd, hreq]
  simp only [hreq, hraw, Bool.false_eq_true, false_and, if_false, hcoerce]
  exact ⟨rfl, validatorFold_kinds rt n c _ c.validators ([], sn)
    (fun e he => absurd he (List.not_mem_nil e))⟩

lemma validateRow_some (rt : JsRuntime) (row : Row) (n : Nat) (mr : MappingResult)
    (cs : CanonicalSchema) (seen : Seen) :
    (validateRow rt row n mr (some cs) seen).1.data =
      (validateCells rt row n (targetToSource mr) cs.columns ([], [], seen)).1 ∧
    (validateRow rt row n mr (some cs) seen).1.errors =
      (validateCells rt row n (targetToSource mr) cs.columns ([], [], seen)).2.1 :=
  ⟨rfl, rfl⟩

/-- C1. Claim (corrected): for every row and schema column whose raw cell
is empty (empty string, null or undefined), validateRow checks required
first: a required column always gets a required_missing CellError, with
its cell resolved to the declared default if present, else null; only for
non-required columns does the emptiness cascade of coerceValue apply
(nullable gives null without error; otherwise the default if declared,
else null, where only declared validators can still object to a non-null
default value). -/
theorem validateRow_empty_cell (rt : JsRuntime) (row : Row) (n : Nat)
    (mr : MappingResult) (cs : CanonicalSchema) (seen : Seen) (c : ColumnDefinition)
    (hc : c ∈ cs.columns) (hnd : (cs.columns.map ColumnDefinition.name).Nodup)
    (hraw : isEmptyRaw (rawOf row (targetToSource mr) c) = true) :
    (c.required = true →
      recordGet (validateRow rt row n mr (some cs) seen).1.data c.name =
        some (c.default.getD Value.vNull) ∧
      ((validateRow rt row n mr (some cs) seen).1.errors.filter
        (fun e => decide (e.column = c.name))).map CellError.errorType =
        [ErrorKind.required_missing]) ∧
    (c.required = false → c.nullable = true →
      recordGet (validateRow rt row n mr (some cs) seen).1.data c.name =
        some Value.vNull ∧
      (validateRow rt row n mr (some cs) seen).1.errors.filter
        (fun e => decide (e.column = c.name)) = []) ∧
    (c.required = false → c.nullable = false →
      recordGet (validateRow rt row n mr (some cs) seen).1.data c.name =
        some (c.default.getD Value.vNull) ∧
      ∀ e ∈ (validateRow rt row n mr (some cs) seen).1.errors.filter
        (fun e => decide (e.column = c.name)),
        e.errorType = ErrorKind.validation_failed) := by
  obtain ⟨sn, hget, herrs⟩ :=
    validateCells_lookup rt row n (targetToSource mr) cs.columns
      (([] : Record), ([] : List CellError), seen) c hc hnd
  obtain ⟨hdata, herrsRow⟩ := validateRow_some rt row n mr cs seen
  have hfilter : (validateRow rt row n mr (some cs) seen).1.errors.filter
      (fun e => decide (e.column = c.name)) =
      (validateCell rt row n (targetToSource mr) sn c).2.1 := by
    rw [herrsRow, herrs]
    simp
  refine ⟨?_, ?_, ?_⟩
  · intro hreq
    obtain ⟨hval, hkinds⟩ := validateCell_empty_required rt row n
      (targetToSource mr) sn c hreq hraw
    constructor
    · rw [hdata, hget, hval]
    · rw [hfilter, hkinds]
  · intro hreq hnul
    obtain ⟨hval, hnilerr⟩ := validateCell_empty_nullable rt row n
      (targetToSource mr) sn c hreq hnul hraw
    constructor
    · rw [hdata, hget, hval]
    · rw [hfilter, hnilerr]
  · intro hreq hnul
    obtain ⟨hval, hkinds⟩ := validateCell_empty_notnull rt row n
      (targetToSource mr) sn c hreq hnul hraw
    constructor
    · rw [hdata, hget, hval]
    · rw [hfilter]
      exact hkinds

/-- Non-required nullable string column for the C1 witness. -/
def cdC1w : ColumnDefinition := { name := "c", type := ColumnType.string }

def csC1w : CanonicalSchema := { name := "s", columns := [cdC1w] }

def mrC1 : MappingResult :=
  { mappings := [{ sourceColumn := "c", targetColumn := some "c",
                   method := MappingMethod.exact, confidence := 1 }],
    requiresReview := false, ambiguousMappings := [] }

/-- Witness for C1 at a concrete empty cell of a nullable column. -/
theorem validateRow_empty_cell_witness :
    isEmptyRaw (rawOf [("c", "")] (targetToSource mrC1) cdC1w) = true ∧
    recordGet (validateRow rtZero [("c", "")] 1 mrC1 (some csC1w) []).1.data
      cdC1w.name = some Value.vNull ∧
    (validateRow rtZero [("c", "")] 1 mrC1 (some csC1w) []).1.errors.filter
      (fun e => decide (e.column = cdC1w.name)) = [] := by
  refine ⟨by decide, ?_, ?_⟩
  · exact ((validateRow_empty_cell rtZero [("c", "")] 1 mrC1 csC1w [] cdC1w
      (by decide) (by decide) (by decide)).2.1 rfl rfl).1
  · exact ((validateRow_empty_cell rtZero [("c", "")] 1 mrC1 csC1w [] cdC1w
      (by decide) (by decide) (by decide)).2.1 rfl rfl).2

/-- Required and nullable string column: the configuration on which the
claim as stated fails. -/
def cdC1x : ColumnDefinition :=
  { name := "c", type := ColumnType.string, required := true, nullable := true }

def csC1x : CanonicalSchema := { name := "s", columns := [cdC1x] }

/-- Counterexample to C1 as stated: a nullable (and required) column with
an empty cell still receives a required_missing CellError, though the
claim promises no CellError whenever nullable is true. -/
theorem validateRow_empty_cell_counterexample :
    cdC1x.nullable = true ∧
    ((validateRow rtZero [("c", "")] 1 mrC1 (some csC1x) []).1.errors.filter
      (fun e => decide (e.column = "c"))).map CellError.errorType =
      [ErrorKind.required_missing] := by
  decide

lemma targetToSource_none (mr : MappingResult) (nm : String)
    (h : nm ∉ mr.mappings.filterMap ColumnMapping.targetColumn) :
    targetToSource mr nm = none := by
  unfold targetToSource
  have haux : ∀ (l : List ColumnMapping) (acc : Option String),
      (∀ m ∈ l, m.targetColumn ≠ some nm) →
      l.foldl
        (fun acc m =>
          match m.targetColumn with
          | some tc => if tc = nm then some m.sourceColumn else acc
          | none => acc)
        acc = acc := by
    intro l
    induction l with
    | nil => intro acc _; rfl
    | cons m l ih =>
      intro acc hall
      rw [List.foldl_cons]
      have hstep :
          (match m.targetColumn with
           | some tc => if tc = nm then some m.sourceColumn else acc
           | none => acc) = acc := by
        cases htc : m.targetColumn with
        | none => rfl
        | some tc =>
          have : tc ≠ nm := by
            intro hc
            exact hall m (List.mem_cons_self m l) (by rw [htc, hc])
          simp [this]
      rw [hstep]
      exact ih acc (fun m2 hm2 => hall m2 (List.mem_cons_of_mem m hm2))
  apply haux
  intro m hm hcontra
  exact h (List.mem_filterMap.mpr ⟨m, hm, hcontra⟩)

lemma rawOf_none (row : Row) (t2s : String → Option String) (c : ColumnDefinition)
    (h : t2s c.name = none) : rawOf row t2s c = none := by
  unfold rawOf
  rw [h]

/-- An unmapped column always receives its default (or null) from the
output transformation, in the coerced branch as well as the plain one. -/
lemma transformCell_unmapped (rt : JsRuntime) (row : Row)
    (t2s : String → Option String) (ic : Bool) (ec : List String)
    (c : ColumnDefinition) (h : t2s c.name = none) :
    transformCell rt row t2s ic ec c = c.default.getD Value.vNull := by
  unfold transformCell
  rw [rawOf_none row t2s c h]
  split_ifs with hif
  · rfl
  · simp [coerceForOutput, isEmptyRaw]

/-- C10. Claim (corrected): a canonical column that is the target of no
mapping reads as undefined in every row. The validate stage emits
required_missing when the column is required (cell resolved to default if
present else null); when not required it stores null whenever the column
is nullable, and only for non-nullable columns the declared default (else
null). The output stage emits the declared default if present, else null,
in every non-rejected row. -/
theorem unmapped_column_cells (rt : JsRuntime) (row : Row) (n : Nat)
    (mr : MappingResult) (cs : CanonicalSchema) (seen : Seen)
    (rejectedRows : List Nat) (rowError : Option RowError) (rowNumber : Nat)
    (c : ColumnDefinition) (hc : c ∈ cs.columns)
    (hnd : (cs.columns.map ColumnDefinition.name).Nodup)
    (hfree : c.name ∉ mr.mappings.filterMap ColumnMapping.targetColumn) :
    (c.required = true →
      recordGet (validateRow rt row n mr (some cs) seen).1.data c.name =
        some (c.default.getD Value.vNull) ∧
      ((validateRow rt row n mr (some cs) seen).1.errors.filter
        (fun e => decide (e.column = c.name))).map CellError.errorType =
        [ErrorKind.required_missing]) ∧
    (c.required = false →
      recordGet (validateRow rt row n mr (some cs) seen).1.data c.name =
        some (if c.nullable then Value.vNull else c.default.getD Value.vNull)) ∧
    (rowNumber ∉ rejectedRows →
      ∃ rec, transformRow rt row mr (some cs) rejectedRows rowError rowNumber =
        some rec ∧
        recordGet rec c.name = some (c.default.getD Value.vNull)) := by
  have ht2s : targetToSource mr c.name = none := targetToSource_none mr c.name hfree
  have hraw : isEmptyRaw (rawOf row (targetToSource mr) c) = true := by
    rw [rawOf_none row (targetToSource mr) c ht2s]
    rfl
  obtain ⟨sn, hget, herrs⟩ :=
    validateCells_lookup rt row n (targetToSource mr) cs.columns
      (([] : Record), ([] : List CellError), seen) c hc hnd
  obtain ⟨hdata, herrsRow⟩ := validateRow_some rt row n mr cs seen
  refine ⟨?_, ?_, ?_⟩
  · intro hreq
    obtain ⟨hval, hkinds⟩ := validateCell_empty_required rt row n
      (targetToSource mr) sn c hreq hraw
    constructor
    · rw [hdata, hget, hval]
    · rw [herrsRow, herrs]
      simp only [List.filter_nil, List.nil_append]
      rw [hkinds]
  · intro hreq
    cases hnul : c.nullable with
    | true =>
      obtain ⟨hval, _⟩ := validateCell_empty_nullable rt row n
        (targetToSource mr) sn c hreq hnul hraw
      rw [hdata, hget, hval]
      simp
    | false =>
      obtain ⟨hval, _⟩ := validateCell_empty_notnull rt row n
        (targetToSource mr) sn c hreq hnul hraw
      rw [hdata, hget, hval]
      simp
  · intro hnotrej
    unfold transformRow
    rw [if_neg hnotrej]
    refine ⟨_, rfl, ?_⟩
    rw [transformCells_lookup rt row (targetToSource mr) _ _ cs.columns
      ([] : Record) c hc hnd]
    rw [transformCell_unmapped rt row (targetToSource mr) _ _ c ht2s]

/-- Unmapped nullable column with a declared default, for C10. -/
def cdC10 : ColumnDefinition :=
  { name := "d", type := ColumnType.string, default := some (Value.vStr "dflt") }

def csC10 : CanonicalSchema := { name := "s", columns := [cdC10] }

def mrC10 : MappingResult := { mappings := [], requiresReview := false,
                               ambiguousMappings := [] }

/-- Witness for C10: the validate stage stores null for the unmapped
nullable column even though a default is declared, while the output stage
emits the default. -/
theorem unmapped_column_cells_witness :
    cdC10 ∈ csC10.columns ∧
    recordGet (validateRow rtZero [] 1 mrC10 (some csC10) []).1.data "d" =
      some Value.vNull ∧
    (∃ rec, transformRow rtZero [] mrC10 (some csC10) [] none 1 = some rec ∧
      recordGet rec "d" = some (Value.vStr "dflt")) := by
  have h := unmapped_column_cells rtZero [] 1 mrC10 csC10 [] [] none 1 cdC10
    (by decide) (by decide) (by decide)
  refine ⟨by decide, ?_, ?_⟩
  · exact h.2.1 rfl
  · exact h.2.2 (by decide)

/-- Counterexample to C10 as stated: the claim resolves a non-required
unmapped column to its declared default, but validateRow stores null when
the column is nullable (coerceValue checks nullable before the default). -/
theorem unmapped_column_cells_counterexample :
    cdC10.required = false ∧
    cdC10.default = some (Value.vStr "dflt") ∧
    recordGet (validateRow rtZero [] 1 mrC10 (some csC10) []).1.data "d" =
      some Value.vNull ∧
    some Value.vNull ≠ some (Value.vStr "dflt") := by
  decide

lemma coerceValue_integer_fail (rt : JsRuntime) (c : ColumnDefinition) (v : String)
    (hv : v ≠ "")
    (hfail : (coerceValue rt (some v) ColumnType.integer c).success = false) :
    jsParseInt (jsTrim v) = none := by
  have hemp : isEmptyRaw (some v) = false := by simp [isEmptyRaw, hv]
  unfold coerceValue at hfail
  rw [hemp] at hfail
  simp only [Bool.false_eq_true, if_false] at hfail
  cases hp : jsParseInt (jsTrim v) with
  | none => rfl
  | some m =>
    rw [show jsTrim ((some v).getD "") = jsTrim v from rfl, hp] at hfail
    simp at hfail

lemma coerceValue_float_fail (rt : JsRuntime) (c : ColumnDefinition) (v : String)
    (hv : v ≠ "")
    (hfail : (coerceValue rt (some v) ColumnType.float c).success = false) :
    jsParseFloat (jsTrim v) = none := by
  have hemp : isEmptyRaw (some v) = false := by simp [isEmptyRaw, hv]
  unfold coerceValue at hfail
  rw [hemp] at hfail
  simp only [Bool.false_eq_true, if_false] at hfail
  cases hp : jsParseFloat (jsTrim v) with
  | none => rfl
  | some m =>
    rw [show jsTrim ((some v).getD "") = jsTrim v from rfl, hp] at hfail
    simp at hfail

/-- A numeric cell whose validation coercion failed is re-coerced to null
by the output transformation when the column has no default. -/
lemma transformCell_number_fail (rt : JsRuntime) (row : Row)
    (t2s : String → Option String) (ic : Bool) (ec : List String)
    (c : ColumnDefinition) (src : String) (v : String)
    (htype : c.type = ColumnType.integer ∨ c.type = ColumnType.float)
    (hdef : c.default = none)
    (hsrc : t2s c.name = some src) (hv : rowGet row src = some v)
    (hfail : (coerceValue rt (some v) c.type c).success = false) :
    transformCell rt row t2s ic ec c = Value.vNull := by
  have hraw : rawOf row t2s c = some v := by
    unfold rawOf
    rw [hsrc]
    exact hv
  unfold transformCell
  rw [hraw]
  have hcond : (ic && ec.contains c.name && c.default.isSome) = false := by
    rw [hdef]
    simp
  rw [hcond]
  simp only [Bool.false_eq_true, if_false]
  by_cases hvemp : v = ""
  · subst hvemp
    simp [coerceForOutput, isEmptyRaw, hdef]
  · have hemp : isEmptyRaw (some v) = false := by simp [isEmptyRaw, hvemp]
    rcases htype with ht | ht
    · have hnone := coerceValue_integer_fail rt c v hvemp (ht ▸ hfail)
      unfold coerceForOutput
      rw [hemp, ht]
      simp only [Bool.false_eq_true, if_false]
      rw [show jsTrim ((some v).getD "") = jsTrim v from rfl, hnone]
    · have hnone := coerceValue_float_fail rt c v hvemp (ht ▸ hfail)
      unfold coerceForOutput
      rw [hemp, ht]
      simp only [Bool.false_eq_true, if_false]
      rw [show jsTrim ((some v).getD "") = jsTrim v from rfl, hnone]

/-- C2. Claim (corrected): under the flag policy the output stage does not
echo the raw source value of a cell that failed numeric coercion during
validation. The validate stage keeps the raw value in its own row data,
but the output stage re-runs its lightweight coercion on the raw value,
and for an integer or float column without a default that yields null. -/
theorem flagged_number_cell_outputs_null (rt : JsRuntime) (row : Row)
    (mr : MappingResult) (cs : CanonicalSchema) (rejectedRows : List Nat)
    (rowError : Option RowError) (rowNumber : Nat) (c : ColumnDefinition)
    (src v : String) (hc : c ∈ cs.columns)
    (hnd : (cs.columns.map ColumnDefinition.name).Nodup)
    (htype : c.type = ColumnType.integer ∨ c.type = ColumnType.float)
    (hdef : c.default = none)
    (hsrc : targetToSource mr c.name = some src) (hv : rowGet row src = some v)
    (hfail : (coerceValue rt (some v) c.type c).success = false)
    (hnotrej : rowNumber ∉ rejectedRows) :
    ∃ rec, transformRow rt row mr (some cs) rejectedRows rowError rowNumber =
      some rec ∧
      recordGet rec c.name = some Value.vNull ∧
      some Value.vNull ≠ some (rawToValue (some v)) := by
  unfold transformRow
  rw [if_neg hnotrej]
  refine ⟨_, rfl, ?_, by simp [rawToValue]⟩
  rw [transformCells_lookup rt row (targetToSource mr) _ _ cs.columns
    ([] : Record) c hc hnd]
  rw [transformCell_number_fail rt row (targetToSource mr) _ _ c src v htype hdef
    hsrc hv hfail]

/-- Integer column without default, for C2. -/
def cdC2 : ColumnDefinition := { name := "n", type := ColumnType.integer }

def csC2 : CanonicalSchema := { name := "s", columns := [cdC2] }

def mrC2 : MappingResult :=
  { mappings := [{ sourceColumn := "n", targetColumn := some "n",
                   method := MappingMethod.exact, confidence := 1 }],
    requiresReview := false, ambiguousMappings := [] }

/-- Witness for C2 at the raw cell value abc of an integer column. -/
theorem flagged_number_cell_outputs_null_witness :
    (coerceValue rtZero (some "abc") cdC2.type cdC2).success = false ∧
    (∃ rec, transformRow rtZero [("n", "abc")] mrC2 (some csC2) []
        (some { row := 1, errors := [], action := RowAction.flagged }) 1 =
        some rec ∧
      recordGet rec cdC2.name = some Value.vNull ∧
      some Value.vNull ≠ some (rawToValue (some "abc"))) := by
  refine ⟨by decide, ?_⟩
  exact flagged_number_cell_outputs_null rtZero [("n", "abc")] mrC2 csC2 []
    (some { row := 1, errors := [], action := RowAction.flagged }) 1 cdC2
    "n" "abc" (by decide) (by decide) (Or.inl rfl) rfl (by decide) (by decide)
    (by decide) (by decide)

/-- The validation result the validate stage persists for the single row
whose integer cell holds the raw value abc under the flag policy. -/
def vrC2 : ValidationResult :=
  { validRowCount := 0, invalidRowCount := 1,
    errors := [{ row := 1,
                 errors := [{ row := 1, column := "n", value := Value.vStr "abc",
                              expectedType := ColumnType.integer,
                              errorType := ErrorKind.type_coercion,
                              message := "Cannot parse \"abc\" as integer" }],
                 action := RowAction.flagged }],
    errorsByColumn := [("n", 1)] }

/-- Counterexample to C2 as stated: under the flag policy the row with raw
integer cell abc is flagged with a type_coercion error, yet the emitted
output cell is null, not the raw value abc. -/
theorem flagged_number_cell_counterexample :
    csC2.errorPolicy = ErrorPolicy.flag ∧
    cdC2.default = none ∧
    runValidation rtZero (some csC2) mrC2 [[("n", "abc")]] = Except.ok vrC2 ∧
    buildOutputRows rtZero mrC2 (some csC2) (some vrC2) [[("n", "abc")]] =
      [[("n", Value.vNull)]] ∧
    Value.vNull ≠ Value.vStr "abc" :=
  ⟨rfl, rfl, by rfl, by decide, by decide⟩

/-! ### Prefix characterisation of the numeric parsers (for C3) -/

/-- The list starts with a decimal digit. -/
def leadingDigit : List Char → Bool
  | c :: _ => c.isDigit
  | [] => false

/-- Drop one leading sign, as parseInt and parseFloat do. -/
def signStrip (l : List Char) : List Char :=
  match l with
  | c :: rest => if c = '-' ∨ c = '+' then rest else c :: rest
  | [] => []

/-- parseInt succeeds exactly on an optional sign followed by a digit. -/
def intPrefixOk (l : List Char) : Bool :=
  leadingDigit (signStrip l)

/-- A decimal mantissa starts here: a digit, or a dot followed by one. -/
def mantissaStart (l : List Char) : Bool :=
  match l with
  | c :: rest => c.isDigit ∨ (c = '.' ∧ leadingDigit rest)
  | [] => false

/-- parseFloat succeeds exactly on an optional sign followed by the
literal Infinity or a decimal mantissa. -/
def floatPrefixOk (l : List Char) : Bool :=
  (decide ((signStrip l).take 8 = "Infinity".data)) || mantissaStart (signStrip l)

lemma optMap_isSome {α β : Type} (o : Option α) (f : α → β) :
    (o.map f).isSome = o.isSome := by
  cases o <;> rfl

lemma optBind_some_isSome {α β : Type} (o : Option α) (f : α → β) :
    (o.bind fun a => some (f a)).isSome = o.isSome := by
  cases o <;> rfl

lemma jsParseIntCore_isSome (l : List Char) :
    (jsParseIntCore l).isSome = leadingDigit l := by
  unfold jsParseIntCore leadingDigit
  cases l with
  | nil => simp
  | cons c r =>
    by_cases hc : c.isDigit
    · simp [List.takeWhile_cons, hc]
    · simp [List.takeWhile_cons, hc]

lemma jsParseInt_isSome (s : String) :
    (jsParseInt s).isSome = intPrefixOk (s.data.dropWhile jsWs) := by
  unfold jsParseInt intPrefixOk signStrip
  cases hcs : s.data.dropWhile jsWs with
  | nil => simp [leadingDigit]
  | cons c rest =>
    by_cases hminus : c = '-'
    · simp [hminus, optMap_isSome, optBind_some_isSome, jsParseIntCore_isSome]
    · by_cases hplus : c = '+'
      · simp [hminus, hplus, optMap_isSome, optBind_some_isSome, jsParseIntCore_isSome]
      · simp [hminus, hplus, optMap_isSome, optBind_some_isSome, jsParseIntCore_isSome]

lemma jsMantissa_isSome (l : List Char) :
    (jsMantissa l).isSome = mantissaStart l := by
  unfold jsMantissa
  cases l with
  | nil => simp [mantissaStart]
  | cons c r =>
    by_cases hc : c.isDigit
    · have hint : (c :: r).takeWhile Char.isDigit = c :: r.takeWhile Char.isDigit := by
        simp [List.takeWhile_cons, hc]
      have hmst : mantissaStart (c :: r) = true := by simp [mantissaStart, hc]
      simp only [hint, List.length_cons, List.drop_succ_cons, hmst]
      cases hrest : r.drop (r.takeWhile Char.isDigit).length with
      | nil => simp
      | cons c2 r2 =>
        by_cases hdot : c2 = '.'
        · simp [hdot]
        · simp [hdot]
    · have hint : (c :: r).takeWhile Char.isDigit = [] := by
        simp [List.takeWhile_cons, hc]
      rw [hint]
      simp only [List.length_nil, List.drop_zero]
      by_cases hdot : c = '.'
      · subst hdot
        cases hfrac : r.takeWhile Char.isDigit with
        | nil =>
          have : leadingDigit r = false := by
            cases r with
            | nil => rfl
            | cons d r2 =>
              by_cases hd : d.isDigit
              · simp [List.takeWhile_cons, hd] at hfrac
              · simp [leadingDigit, hd]
          simp [hfrac, mantissaStart, this, hc]
        | cons d ds =>
          have : leadingDigit r = true := by
            cases r with
            | nil => simp [List.takeWhile_nil] at hfrac
            | cons d2 r2 =>
              by_cases hd : d2.isDigit
              · simp [leadingDigit, hd]
              · simp [List.takeWhile_cons, hd] at hfrac
          simp [hfrac, mantissaStart, this, hc]
      · simp [mantissaStart, hc, hdot]

lemma jsParseFloatCore_isSome (neg : Bool) (l : List Char) :
    (jsParseFloatCore neg l).isSome =
      ((decide (l.take 8 = "Infinity".data)) || mantissaStart l) := by
  unfold jsParseFloatCore
  by_cases hinf : l.take 8 = "Infinity".data
  · simp [hinf]
  · rw [if_neg hinf]
    cases hm : jsMantissa l with
    | none =>
      have := jsMantissa_isSome l
      rw [hm] at this
      simp at this
      simp [hinf, this]
    | some qr =>
      have := jsMantissa_isSome l
      rw [hm] at this
      simp at this
      obtain ⟨q, rest⟩ := qr
      simp [hinf, this]

lemma jsParseFloat_isSome (s : String) :
    (jsParseFloat s).isSome = floatPrefixOk (s.data.dropWhile jsWs) := by
  unfold jsParseFloat floatPrefixOk signStrip
  cases hcs : s.data.dropWhile jsWs with
  | nil => simp [mantissaStart]
  | cons c rest =>
    by_cases hminus : c = '-'
    · simp [hminus, jsParseFloatCore_isSome]
    · by_cases hplus : c = '+'
      · simp [hminus, hplus, jsParseFloatCore_isSome]
      · simp [hminus, hplus, jsParseFloatCore_isSome]

/-- C3. Claim (corrected): the validate coercion does not reject integer
coercion on every non-integer-literal string, nor float coercion on a
second dot; it follows parseInt and parseFloat prefix semantics. For a
non-empty string, integer coercion succeeds exactly when the trimmed
string starts with an optional sign and a digit (so 3.9 truncates to 3
and 12abc to 12), and float coercion succeeds exactly when it starts with
an optional sign followed by Infinity or a decimal mantissa (so 1.2.3
succeeds, parsing the prefix 1.2). -/
theorem coerce_number_prefix_semantics (rt : JsRuntime) (cd : ColumnDefinition)
    (s : String) (hs : s ≠ "") :
    ((coerceValue rt (some s) ColumnType.integer cd).success = true ↔
      intPrefixOk ((jsTrim s).data.dropWhile jsWs) = true) ∧
    ((coerceValue rt (some s) ColumnType.float cd).success = true ↔
      floatPrefixOk ((jsTrim s).data.dropWhile jsWs) = true) ∧
    coerceValue rt (some "3.9") ColumnType.integer cd =
      { success := true, value := Value.vInt 3, error := none } ∧
    coerceValue rt (some "12abc") ColumnType.integer cd =
      { success := true, value := Value.vInt 12, error := none } ∧
    (coerceValue rt (some "1.2.3") ColumnType.float cd).success = true := by
  have hemp : isEmptyRaw (some s) = false := by simp [isEmptyRaw, hs]
  refine ⟨?_, ?_, rfl, rfl, rfl⟩
  · unfold coerceValue
    rw [hemp]
    simp only [Bool.false_eq_true, if_false]
    rw [show jsTrim ((some s).getD "") = jsTrim s from rfl]
    cases hp : jsParseInt (jsTrim s) with
    | none =>
      have := jsParseInt_isSome (jsTrim s)
      rw [hp] at this
      simp at this
      simp [this]
    | some n =>
      have := jsParseInt_isSome (jsTrim s)
      rw [hp] at this
      simp at this
      simp [this]
  · unfold coerceValue
    rw [hemp]
    simp only [Bool.false_eq_true, if_false]
    rw [show jsTrim ((some s).getD "") = jsTrim s from rfl]
    cases hp : jsParseFloat (jsTrim s) with
    | none =>
      have := jsParseFloat_isSome (jsTrim s)
      rw [hp] at this
      simp at this
      simp [this]
    | some x =>
      have := jsParseFloat_isSome (jsTrim s)
      rw [hp] at this
      simp at this
      simp [this]

/-- Witness for C3 at the concrete string 3.9. -/
theorem coerce_number_prefix_semantics_witness :
    ("3.9" : String) ≠ "" ∧
    ((coerceValue rtZero (some "3.9") ColumnType.integer cdC2).success = true ↔
      intPrefixOk ((jsTrim "3.9").data.dropWhile jsWs) = true) :=
  ⟨by decide, (coerce_number_prefix_semantics rtZero cdC2 "3.9" (by decide)).1⟩

/-- Float column without default, for C3. -/
def cdC3f : ColumnDefinition := { name := "f", type := ColumnType.float }

/-- Counterexample to C3 as stated: 3.9 is not an integer literal (by the
repository's own isInteger) yet integer coercion succeeds, 12abc also
succeeds, and 1.2.3 contains two dots yet float coercion succeeds. -/
theorem coerce_number_counterexample :
    isInteger "3.9" = false ∧
    (coerceValue rtZero (some "3.9") ColumnType.integer cdC2).success = true ∧
    (coerceValue rtZero (some "12abc") ColumnType.integer cdC2).success = true ∧
    "1.2.3".data.count '.' = 2 ∧
    (coerceValue rtZero (some "1.2.3") ColumnType.float cdC3f).success = true := by
  decide

/-! ### Distinctness of mapped targets (for C4) -/

/-- The non-null target columns of a mapping list, in order. -/
def targetsOf (ms : List ColumnMapping) : List String :=
  ms.filterMap ColumnMapping.targetColumn

lemma findExactMatch_mem (s : String) (ts : List ColumnDefinition)
    (c : MappingCandidate) (h : findExactMatch s ts = some c) :
    c.targetColumn ∈ ts.map ColumnDefinition.name := by
  unfold findExactMatch at h
  cases hf : ts.find? (fun t => t.name == s) with
  | none => rw [hf] at h; cases h
  | some t =>
    rw [hf] at h
    cases h
    exact List.mem_map_of_mem ColumnDefinition.name (List.mem_of_find?_eq_some hf)

lemma findCaseInsensitiveMatch_mem (s : String) (ts : List ColumnDefinition)
    (c : MappingCandidate) (h : findCaseInsensitiveMatch s ts = some c) :
    c.targetColumn ∈ ts.map ColumnDefinition.name := by
  unfold findCaseInsensitiveMatch at h
  cases hf : ts.find? (fun t => jsToLower t.name == jsToLower s) with
  | none => rw [hf] at h; cases h
  | some t =>
    rw [hf] at h
    cases h
    exact List.mem_map_of_mem ColumnDefinition.name (List.mem_of_find?_eq_some hf)

lemma findAliasMatch_mem (s : String) (ts : List ColumnDefinition)
    (c : MappingCandidate) (h : findAliasMatch s ts = some c) :
    c.targetColumn ∈ ts.map ColumnDefinition.name := by
  unfold findAliasMatch at h
  cases hf : ts.find? (fun t => t.aliases.any (fun a =>
      jsToLower a == jsToLower s || normalize a == normalize s)) with
  | none => rw [hf] at h; cases h
  | some t =>
    rw [hf] at h
    cases h
    exact List.mem_map_of_mem ColumnDefinition.name (List.mem_of_find?_eq_some hf)

lemma fuzzyFold_target (sim : String → String → ℚ) (sn : String)
    (acc : Option MappingCandidate × ℚ) (t : ColumnDefinition) :
    (fuzzyFold sim sn acc t).1 = acc.1 ∨
    ∃ conf, (fuzzyFold sim sn acc t).1 = some ⟨t.name, MappingMethod.fuzzy, conf⟩ := by
  unfold fuzzyFold
  have haux : ∀ (al : List String) (a : Option MappingCandidate × ℚ),
      (a.1 = acc.1 ∨ ∃ conf, a.1 = some ⟨t.name, MappingMethod.fuzzy, conf⟩) →
      ((al.foldl
        (fun acc2 a2 =>
          let s2 := sim sn (normalize a2)
          if s2 > acc2.2 ∧ s2 ≥ mkRat 1 2 then
            ((some ⟨t.name, MappingMethod.fuzzy, s2⟩ : Option MappingCandidate), s2)
          else acc2)
        a).1 = acc.1 ∨
      ∃ conf, (al.foldl
        (fun acc2 a2 =>
          let s2 := sim sn (normalize a2)
          if s2 > acc2.2 ∧ s2 ≥ mkRat 1 2 then
            ((some ⟨t.name, MappingMethod.fuzzy, s2⟩ : Option MappingCandidate), s2)
          else acc2)
        a).1 = some ⟨t.name, MappingMethod.fuzzy, conf⟩) := by
    intro al
    induction al with
    | nil => intro a ha; exact ha
    | cons x al ih =>
      intro a ha
      rw [List.foldl_cons]
      apply ih
      dsimp only
      split_ifs with hcond
      · exact Or.inr ⟨sim sn (normalize x), rfl⟩
      · exact ha
  apply haux
  dsimp only
  split_ifs with hcond
  · exact Or.inr ⟨sim sn (normalize t.name), rfl⟩
  · exact Or.inl rfl

lemma findFuzzyMatch_mem (sim : String → String → ℚ) (s : String)
    (ts : List ColumnDefinition) (c : MappingCandidate)
    (h : findFuzzyMatch sim s ts = some c) :
    c.targetColumn ∈ ts.map ColumnDefinition.name := by
  unfold findFuzzyMatch at h
  have haux : ∀ (l : List ColumnDefinition) (acc : Option MappingCandidate × ℚ),
      l ⊆ ts →
      (acc.1 = none ∨ ∃ c2, acc.1 = some c2 ∧ c2.targetColumn ∈ ts.map ColumnDefinition.name) →
      ((l.foldl (fuzzyFold sim (normalize s)) acc).1 = none ∨
        ∃ c2, (l.foldl (fuzzyFold sim (normalize s)) acc).1 = some c2 ∧
          c2.targetColumn ∈ ts.map ColumnDefinition.name) := by
    intro l
    induction l with
    | nil => intro acc _ hacc; exact hacc
    | cons t l ih =>
      intro acc hsub hacc
      rw [List.foldl_cons]
      refine ih _ (fun x hx => hsub (List.mem_cons_of_mem t hx)) ?_
      rcases fuzzyFold_target sim (normalize s) acc t with heq | ⟨conf, heq⟩
      · rw [heq]; exact hacc
      · rw [heq]
        refine Or.inr ⟨_, rfl, ?_⟩
        exact List.mem_map_of_mem ColumnDefinition.name (hsub (List.mem_cons_self t l))
  rcases haux ts (none, 0) (fun x hx => hx) (Or.inl rfl) with hnone | ⟨c2, hc2, hmem⟩
  · rw [h] at hnone; cases hnone
  · rw [h] at hc2
    cases hc2
    exact hmem

lemma pickCandidate_mem (sim : String → String → ℚ) (s : String)
    (ts : List ColumnDefinition) (c : MappingCandidate)
    (h : pickCandidate sim s ts = some c) :
    c.targetColumn ∈ ts.map ColumnDefinition.name := by
  unfold pickCandidate at h
  cases h1 : findExactMatch s ts with
  | some c1 =>
    rw [h1] at h; cases h
    exact findExactMatch_mem s ts c h1
  | none =>
    rw [h1] at h
    cases h2 : findCaseInsensitiveMatch s ts with
    | some c2 =>
      rw [h2] at h; cases h
      exact findCaseInsensitiveMatch_mem s ts c h2
    | none =>
      rw [h2] at h
      cases h3 : findAliasMatch s ts with
      | some c3 =>
        rw [h3] at h; cases h
        exact findAliasMatch_mem s ts c h3
      | none =>
        rw [h3] at h
        exact findFuzzyMatch_mem sim s ts c h

lemma mapColumnsStep_inv (sim : String → String → ℚ) (cs : CanonicalSchema)
    (th : ℚ) (acc : List String × List ColumnMapping) (sc : InferredColumn)
    (h1 : targetsOf acc.2 = acc.1) (h2 : acc.1.Nodup) :
    targetsOf (mapColumnsStep sim cs th acc sc).2 = (mapColumnsStep sim cs th acc sc).1 ∧
    (mapColumnsStep sim cs th acc sc).1.Nodup := by
  unfold mapColumnsStep
  dsimp only
  split
  · rename_i c hcand
    have hmem := pickCandidate_mem sim sc.name _ c hcand
    have hnotin : c.targetColumn ∉ acc.1 := by
      rcases List.mem_map.mp hmem with ⟨t, htmem, htname⟩
      have hpred := (List.mem_filter.mp htmem).2
      rw [decide_eq_true_eq] at hpred
      rw [← htname]
      intro hcontra
      exact hpred (List.elem_eq_true_of_mem hcontra)
    constructor
    · rw [targetsOf, List.filterMap_append, ← targetsOf, h1]
      simp [ColumnMapping.targetColumn, targetsOf]
    · rw [List.nodup_append]
      exact ⟨h2, List.nodup_singleton _, by simp [hnotin]⟩
  · rename_i hcand
    constructor
    · rw [targetsOf, List.filterMap_append, ← targetsOf, h1]
      simp [ColumnMapping.targetColumn, targetsOf]
    · exact h2

/-- C4. Claim (corrected, restricted to the automatic stage): every
MappingResult produced by mapColumns uses each target column at most once
across mappings with a non-null targetColumn, for every similarity
function, source schema, canonical schema and threshold. The result of
applying human review decisions does not preserve this (see the
counterexample). -/
theorem mapColumns_targets_nodup (sim : String → String → ℚ)
    (inf : InferredSchema) (cs : CanonicalSchema) (th : ℚ) :
    (targetsOf (mapColumns sim inf cs th).mappings).Nodup := by
  unfold mapColumns
  dsimp only
  have haux : ∀ (l : List InferredColumn) (acc : List String × List ColumnMapping),
      targetsOf acc.2 = acc.1 → acc.1.Nodup →
      targetsOf (l.foldl (mapColumnsStep sim cs th) acc).2 =
        (l.foldl (mapColumnsStep sim cs th) acc).1 ∧
      (l.foldl (mapColumnsStep sim cs th) acc).1.Nodup := by
    intro l
    induction l with
    | nil => intro acc h1 h2; exact ⟨h1, h2⟩
    | cons sc l ih =>
      intro acc h1 h2
      rw [List.foldl_cons]
      obtain ⟨h3, h4⟩ := mapColumnsStep_inv sim cs th acc sc h1 h2
      exact ih _ h3 h4
  obtain ⟨h1, h2⟩ := haux inf.columns ([], []) rfl List.nodup_nil
  rw [h1]
  exact h2

/-- A similarity function that matches nothing, for concrete scenarios
whose mappings are decided by the exact strategies only. -/
def simZero : String → String → ℚ := fun _ _ => 0

/-- Canonical schema with order_id and amount, strict mode. -/
def schC4 : CanonicalSchema :=
  { name := "orders",
    columns := [{ name := "order_id", type := ColumnType.string },
                { name := "amount", type := ColumnType.float }],
    strict := true }

/-- Source columns order_id and total_price as inferred from an upload. -/
def infC4 : InferredSchema :=
  { columns := [{ name := "order_id", inferredType := ColumnType.string,
                  confidence := 1, nullable := false,
                  uniqueRatio := 1, sampleValues := [], nullCount := 0, totalCount := 1 },
                { name := "total_price", inferredType := ColumnType.float,
                  confidence := 1, nullable := false,
                  uniqueRatio := 1, sampleValues := [], nullCount := 0, totalCount := 1 }],
    rowCount := 1, parseErrors := 0 }

/-- The automatic MappingResult for that scenario: order_id maps exactly,
total_price stays unmapped and is ambiguous under the strict schema. -/
def mrAutoC4 : MappingResult := mapColumns simZero infC4 schC4 (mkRat 4 5)

/-- The human decision assigning the ambiguous source column to a target
that the automatic stage already bound. -/
def decsC4 : List HumanDecision :=
  [{ sourceColumn := "total_price", targetColumn := some "order_id" }]

/-- Formalisation of the claim phrase: the decisions cover all ambiguous
mappings (each ambiguous source column is named by some decision). -/
def specDecisionsCover (mr : MappingResult) (decisions : List HumanDecision) : Prop :=
  ∀ m ∈ mr.ambiguousMappings, ∃ d ∈ decisions, d.sourceColumn = m.sourceColumn

instance specDecisionsCoverDec (mr : MappingResult) (ds : List HumanDecision) :
    Decidable (specDecisionsCover mr ds) :=
  inferInstanceAs
    (Decidable (∀ m ∈ mr.ambiguousMappings, ∃ d ∈ ds, d.sourceColumn = m.sourceColumn))

/-- Counterexample to C4 as stated: applying human review decisions to the
persisted automatic MappingResult can bind the same target twice, even
when the decisions exactly cover the ambiguous mappings. -/
theorem applyHumanDecisions_duplicate_targets :
    targetsOf (applyHumanDecisions mrAutoC4 decsC4).mappings =
      ["order_id", "order_id"] ∧
    ¬ (targetsOf (applyHumanDecisions mrAutoC4 decsC4).mappings).Nodup ∧
    mrAutoC4.ambiguousMappings ≠ [] ∧
    specDecisionsCover mrAutoC4 decsC4 := by
  decide

/-- C5. Claim (corrected): the resolve endpoint fails synchronously with
no state change exactly when the ingestion is not awaiting review (or its
mapping result is missing); whenever the status is awaiting_review with a
persisted mapping result, any decisions list is accepted — coverage of
the ambiguous mappings is never checked — and applyHumanDecisions
unconditionally clears requiresReview and the ambiguous list, so the
pipeline resumes. -/
theorem resolveRoute_precondition (ing : IngestionStub) (ds : List HumanDecision) :
    (ing.status ≠ IngestionStatus.awaiting_review →
      resolveRoute ing ds = ResolveOutcome.badStatus ing.status) ∧
    (∀ mr, ing.status = IngestionStatus.awaiting_review →
      ing.mappingResult = some mr →
      resolveRoute ing ds =
        ResolveOutcome.resumed ⟨ing.status, some (applyHumanDecisions mr ds)⟩ ∧
      (applyHumanDecisions mr ds).requiresReview = false ∧
      (applyHumanDecisions mr ds).ambiguousMappings = []) := by
  constructor
  · intro h
    unfold resolveRoute
    rw [if_pos h]
  · intro mr h1 h2
    unfold resolveRoute
    rw [if_neg (by simp [h1])]
    rw [h2]
    exact ⟨rfl, rfl, rfl⟩

/-- Witness for C5: a concrete awaiting_review ingestion accepts an empty
decisions list. -/
theorem resolveRoute_precondition_witness :
    resolveRoute ⟨IngestionStatus.awaiting_review, some mrAutoC4⟩ [] =
      ResolveOutcome.resumed
        ⟨IngestionStatus.awaiting_review, some (applyHumanDecisions mrAutoC4 [])⟩ ∧
    (applyHumanDecisions mrAutoC4 []).requiresReview = false := by
  have h := (resolveRoute_precondition
    ⟨IngestionStatus.awaiting_review, some mrAutoC4⟩ []).2 mrAutoC4 rfl rfl
  exact ⟨h.1, h.2.1⟩

/-- Counterexample to C5 as stated: with the ingestion awaiting review and
an empty decisions list covering none of the ambiguous mappings, the call
succeeds (it does not fail synchronously) and the persisted mapping
result changes: requiresReview flips from true to false. -/
theorem resolveRoute_counterexample :
    ¬ specDecisionsCover mrAutoC4 [] ∧
    resolveRoute ⟨IngestionStatus.awaiting_review, some mrAutoC4⟩ [] =
      ResolveOutcome.resumed
        ⟨IngestionStatus.awaiting_review, some (applyHumanDecisions mrAutoC4 [])⟩ ∧
    applyHumanDecisions mrAutoC4 [] ≠ mrAutoC4 ∧
    (applyHumanDecisions mrAutoC4 []).requiresReview = false ∧
    mrAutoC4.requiresReview = true := by
  decide

/-! ### Parse stage error handling (C6) -/

lemma parseCSVEvents_ok_errors (ss : Option Nat) (d : Char) :
    ∀ (evs : List ParseEvent) (st : ParseState) (out : ParseOutput),
      parseCSVEvents ss d st evs = Except.ok out → out.parseErrors = st.parseErrors := by
  intro evs
  induction evs with
  | nil =>
    intro st out h
    unfold parseCSVEvents at h
    cases h
    rfl
  | cons e evs ih =>
    intro st out h
    cases e with
    | record r =>
      unfold parseCSVEvents at h
      have := ih (stepRecord ss st r) out h
      rw [this]
      rfl
    | failure m =>
      unfold parseCSVEvents at h
      cases h

/-- A resolved parse never carries a recorded row error: the error handler
that records them also rejects the promise, so the parseErrors machinery
is unreachable in any successful result. -/
theorem parseCSV_ok_no_errors (ss : Option Nat) (d : Char) (evs : List ParseEvent)
    (out : ParseOutput) (h : parseCSV ss d evs = Except.ok out) :
    out.parseErrors = [] :=
  parseCSVEvents_ok_errors ss d evs ⟨[], [], 0, []⟩ out h

/-- Event stream of a readable file whose second data row is malformed
(an invalid closing quote): one good record, then a csv-parse error. -/
def evC6 : List ParseEvent :=
  [ParseEvent.record [("a", "1"), ("b", "2")],
   ParseEvent.failure "Invalid Closing Quote: got x at line 3"]

/-- C6. The claim is right and the code is wrong: an individual row parse
error is pushed onto parseErrors but the same handler rejects the
promise, so parseCSV does not complete and processParseJob transitions
the ingestion to failed instead of recording the error non-fatally. -/
theorem parse_row_error_fatal :
    parseCSV (some 1000) ',' evC6 =
      Except.error "Invalid Closing Quote: got x at line 3" ∧
    processParseResult (parseCSV (some 1000) ',' evC6) = IngestionStatus.failed :=
  ⟨rfl, rfl⟩

/-! ### Journal idempotency per stage (C7) -/

lemma stageEntries_append (st : Stage) (j l : List JournalEntry) :
    stageEntries st (j ++ l) = stageEntries st j ++ stageEntries st l := by
  unfold stageEntries
  exact List.filter_append j l

lemma stageEntries_validateStep (j : List JournalEntry) :
    stageEntries Stage.validate (validateJournalStep j) =
      [⟨Stage.validate, "validation_complete"⟩] := by
  unfold validateJournalStep
  rw [stageEntries_append]
  have h1 : stageEntries Stage.validate
      (j.filter (fun e => decide (e.stage ≠ Stage.validate))) = [] := by
    unfold stageEntries
    rw [List.filter_eq_nil_iff]
    intro e he
    have := (List.mem_filter.mp he).2
    simp at this ⊢
    exact this
  rw [h1]
  rfl

lemma stageEntries_outputStep (j : List JournalEntry) :
    stageEntries Stage.output (outputJournalStep j) =
      [⟨Stage.output, "output_complete"⟩] := by
  unfold outputJournalStep
  rw [stageEntries_append]
  have h1 : stageEntries Stage.output
      (j.filter (fun e => decide (e.stage ≠ Stage.output))) = [] := by
    unfold stageEntries
    rw [List.filter_eq_nil_iff]
    intro e he
    have := (List.mem_filter.mp he).2
    simp at this ⊢
    exact this
  rw [h1]
  rfl

/-- C7. Claim (corrected): only the validate and output workers purge
their prior journal entries before appending, so re-running them leaves
the journal content of their stage unchanged; the parse, infer and map
workers append without purging, so every re-run grows their stage's
entries (by one for parse and infer, by one per mapping for map). -/
theorem stage_journal_idempotency (j : List JournalEntry) (mr : MappingResult) :
    stageEntries Stage.validate (validateJournalStep (validateJournalStep j)) =
      stageEntries Stage.validate (validateJournalStep j) ∧
    stageEntries Stage.output (outputJournalStep (outputJournalStep j)) =
      stageEntries Stage.output (outputJournalStep j) ∧
    (stageEntries Stage.parse (parseJournalStep j)).length =
      (stageEntries Stage.parse j).length + 1 ∧
    (stageEntries Stage.infer (inferJournalStep j)).length =
      (stageEntries Stage.infer j).length + 1 ∧
    (stageEntries Stage.map (mapJournalStep mr j)).length =
      (stageEntries Stage.map j).length + mr.mappings.length := by
  refine ⟨?_, ?_, ?_, ?_, ?_⟩
  · rw [stageEntries_validateStep, stageEntries_validateStep]
  · rw [stageEntries_outputStep, stageEntries_outputStep]
  · unfold parseJournalStep
    rw [stageEntries_append, List.length_append]
    rfl
  · unfold inferJournalStep
    rw [stageEntries_append, List.length_append]
    rfl
  · unfold mapJournalStep
    rw [stageEntries_append, List.length_append]
    have hall : stageEntries Stage.map
        (mr.mappings.map (fun m =>
          (⟨Stage.map, if m.targetColumn.isSome then "column_mapped"
            else "column_unmapped"⟩ : JournalEntry))) =
        mr.mappings.map (fun m =>
          (⟨Stage.map, if m.targetColumn.isSome then "column_mapped"
            else "column_unmapped"⟩ : JournalEntry)) := by
      unfold stageEntries
      rw [List.filter_eq_self]
      intro e he
      rcases List.mem_map.mp he with ⟨m, _, hm⟩
      rw [← hm]
      simp
    rw [hall, List.length_map]

/-- Counterexample to C7 as stated: re-running the parse stage from the
same persisted state duplicates its journal entry, because processParseJob
never removes prior parse entries. -/
theorem stage_journal_counterexample :
    stageEntries Stage.parse (parseJournalStep (parseJournalStep [])) ≠
      stageEntries Stage.parse (parseJournalStep []) := by
  decide

/-! ### Integer-to-float promotion (C8) -/

lemma modeFold_keep (votes : ColumnType → Nat) (l : List ColumnType)
    (acc : ColumnType × Nat) (h : ∀ t ∈ l, ¬ votes t > acc.2) :
    l.foldl (fun acc t => if votes t > acc.2 then (t, votes t) else acc) acc = acc := by
  induction l with
  | nil => rfl
  | cons t l ih =>
    rw [List.foldl_cons, if_neg (h t (List.mem_cons_self t l))]
    exact ih (fun t2 ht2 => h t2 (List.mem_cons_of_mem t ht2))

lemma modeFold_integer (votes : ColumnType → Nat)
    (hdom : ∀ t ∈ typeOrder, t ≠ ColumnType.integer →
      votes t < votes ColumnType.integer)
    (hpos : 0 < votes ColumnType.integer) :
    modeFold votes = (ColumnType.integer, votes ColumnType.integer) := by
  have hstr : votes ColumnType.string < votes ColumnType.integer :=
    hdom ColumnType.string (by decide) (by decide)
  unfold modeFold typeOrder
  rw [List.foldl_cons, List.foldl_cons]
  have hstep1 :
      (if votes ColumnType.string > (ColumnType.string, 0).2
        then (ColumnType.string, votes ColumnType.string)
        else (ColumnType.string, 0)).2 = votes ColumnType.string ∨
      (if votes ColumnType.string > (ColumnType.string, 0).2
        then (ColumnType.string, votes ColumnType.string)
        else (ColumnType.string, 0)).2 = 0 := by
    split_ifs with hcond
    · exact Or.inl rfl
    · exact Or.inr rfl
  have hstep2 : ∀ acc1 : ColumnType × Nat, acc1.2 < votes ColumnType.integer →
      (if votes ColumnType.integer > acc1.2
        then (ColumnType.integer, votes ColumnType.integer) else acc1) =
      (ColumnType.integer, votes ColumnType.integer) := by
    intro acc1 hlt
    rw [if_pos hlt]
  rw [hstep2 _ (by rcases hstep1 with h | h <;> rw [h] <;> omega)]
  apply modeFold_keep
  intro t ht
  have hne : t ≠ ColumnType.integer := by
    intro hc
    subst hc
    simp at ht
  have hmem : t ∈ typeOrder := by
    unfold typeOrder
    simp at ht ⊢
    tauto
  have := hdom t hmem hne
  omega

lemma voteStep_counts (rt : JsRuntime) (t : ColumnType) (st : VoteState)
    (val : Option String) :
    (voteStep rt st val).votes t + (voteStep rt st val).nullCount ≤
      st.votes t + st.nullCount + 1 ∧
    st.nullCount ≤ (voteStep rt st val).nullCount := by
  unfold voteStep
  split_ifs with hemp
  · dsimp only
    exact ⟨by omega, by omega⟩
  · dsimp only
    constructor
    · by_cases ht : t = detectType rt (jsTrim (val.getD ""))
      · rw [if_pos ht]
        omega
      · rw [if_neg ht]
        omega
    · omega

lemma votesFold_le (rt : JsRuntime) (t : ColumnType) :
    ∀ (samples : List (Option String)) (st0 : VoteState),
      (samples.foldl (voteStep rt) st0).votes t +
        (samples.foldl (voteStep rt) st0).nullCount ≤
      st0.votes t + st0.nullCount + samples.length := by
  intro samples
  induction samples with
  | nil => intro st0; simp
  | cons v rest ih =>
    intro st0
    rw [List.foldl_cons]
    have h1 := ih (voteStep rt st0 v)
    have h2 := voteStep_counts rt t st0 v
    simp only [List.length_cons]
    omega

/-- C8. Claim (corrected in its concrete scenario): whenever integer
gets strictly more votes than every other type and at least one sample
voted float, the inferred type is promoted to float with confidence
(integer votes + float votes) / nonNullCount. In the scenario 1, 2, 3.5,
4 the sample 1 votes boolean (the boolean literal set contains 1), so the
promoted confidence is 3/4, not 1. -/
theorem integer_float_promotion (rt : JsRuntime) (samples : List (Option String))
    (hdom : ∀ t ∈ typeOrder, t ≠ ColumnType.integer →
      (samples.foldl (voteStep rt) ⟨fun _ => 0, 0, [], []⟩).votes t <
      (samples.foldl (voteStep rt) ⟨fun _ => 0, 0, [], []⟩).votes ColumnType.integer)
    (hfl : 0 < (samples.foldl (voteStep rt) ⟨fun _ => 0, 0, [], []⟩).votes
      ColumnType.float) :
    (inferColumnType rt samples).inferredType = ColumnType.float ∧
    (inferColumnType rt samples).confidence =
      (((samples.foldl (voteStep rt) ⟨fun _ => 0, 0, [], []⟩).votes ColumnType.integer +
        (samples.foldl (voteStep rt) ⟨fun _ => 0, 0, [], []⟩).votes ColumnType.float : ℕ) : ℚ) /
      ((samples.length -
        (samples.foldl (voteStep rt) ⟨fun _ => 0, 0, [], []⟩).nullCount : ℕ) : ℚ) := by
  have hpos : 0 < (samples.foldl (voteStep rt) ⟨fun _ => 0, 0, [], []⟩).votes
      ColumnType.integer := by
    have := hdom ColumnType.float (by decide) (by decide)
    omega
  have hmode := modeFold_integer
    ((samples.foldl (voteStep rt) ⟨fun _ => 0, 0, [], []⟩).votes) hdom hpos
  have hbound := votesFold_le rt ColumnType.float samples ⟨fun _ => 0, 0, [], []⟩
  have hnonnull : 0 < samples.length -
      (samples.foldl (voteStep rt) ⟨fun _ => 0, 0, [], []⟩).nullCount := by
    simp only at hbound
    omega
  unfold inferColumnType
  dsimp only
  rw [hmode]
  dsimp only
  rw [if_pos ⟨rfl, hfl⟩, if_pos hnonnull]
  exact ⟨rfl, rfl⟩

/-- Witness for C8: samples 2, 3, 3.5 give integer two votes, float one,
everything else zero; the result is float with the promoted quotient. -/
theorem integer_float_promotion_witness :
    (∀ t ∈ typeOrder, t ≠ ColumnType.integer →
      (([some "2", some "3", some "3.5"] : List (Option String)).foldl
        (voteStep rtZero) ⟨fun _ => 0, 0, [], []⟩).votes t <
      (([some "2", some "3", some "3.5"] : List (Option String)).foldl
        (voteStep rtZero) ⟨fun _ => 0, 0, [], []⟩).votes ColumnType.integer) ∧
    (inferColumnType rtZero [some "2", some "3", some "3.5"]).inferredType =
      ColumnType.float := by
  refine ⟨by decide, ?_⟩
  exact (integer_float_promotion rtZero [some "2", some "3", some "3.5"]
    (by decide) (by decide)).1

/-- Counterexample to the concrete scenario of C8: on samples 1, 2, 3.5,
4 the inferred type is float but the confidence is 3/4, not 1.0, because
the sample 1 votes boolean rather than integer. -/
theorem integer_float_promotion_counterexample :
    (inferColumnType rtZero [some "1", some "2", some "3.5", some "4"]).inferredType =
      ColumnType.float ∧
    (inferColumnType rtZero [some "1", some "2", some "3.5", some "4"]).confidence =
      ((3 : ℕ) : ℚ) / ((4 : ℕ) : ℚ) ∧
    ((3 : ℕ) : ℚ) / ((4 : ℕ) : ℚ) ≠ 1 ∧
    (([some "1", some "2", some "3.5", some "4"] : List (Option String)).foldl
      (voteStep rtZero) ⟨fun _ => 0, 0, [], []⟩).votes ColumnType.boolean = 1 ∧
    (([some "1", some "2", some "3.5", some "4"] : List (Option String)).foldl
      (voteStep rtZero) ⟨fun _ => 0, 0, [], []⟩).votes ColumnType.integer = 2 := by
  refine ⟨rfl, rfl, by norm_num, by decide, by decide⟩

/-! ### Delimiter detection picks a maximal candidate (C9) -/

lemma bestDelimPair_spec (line : List Char) :
    (bestDelimPair line).1 ∈ COMMON_DELIMITERS ∧
    (bestDelimPair line).2 = line.count (bestDelimPair line).1 ∧
    ∀ d ∈ COMMON_DELIMITERS, line.count d ≤ (bestDelimPair line).2 := by
  unfold bestDelimPair COMMON_DELIMITERS
  simp only [List.foldl_cons, List.foldl_nil]
  split_ifs <;>
    refine ⟨by simp, rfl, ?_⟩ <;>
    intro d hd <;>
    simp only [List.mem_cons, List.not_mem_nil, or_false] at hd <;>
    rcases hd with rfl | rfl | rfl | rfl <;>
    dsimp only <;>
    omega

/-- C9. Confirmed: on the first line of the first 4 KiB chunk, whenever
some candidate delimiter occurs at least once the detected delimiter is a
candidate achieving the maximal occurrence count (ties broken by
candidate order through the stable sort); with no occurrence of any
candidate the default comma is returned. -/
theorem detectDelimiter_picks_max (data : String) :
    ((∃ d ∈ COMMON_DELIMITERS,
        0 < (data.data.takeWhile (fun c => c ≠ '\n')).count d) →
      detectDelimiter data ∈ COMMON_DELIMITERS ∧
      ∀ d ∈ COMMON_DELIMITERS,
        (data.data.takeWhile (fun c => c ≠ '\n')).count d ≤
          (data.data.takeWhile (fun c => c ≠ '\n')).count (detectDelimiter data)) ∧
    ((∀ d ∈ COMMON_DELIMITERS,
        (data.data.takeWhile (fun c => c ≠ '\n')).count d = 0) →
      detectDelimiter data = ',') := by
  constructor
  · rintro ⟨d, hd, hcount⟩
    unfold detectDelimiter
    by_cases hdata : data = ""
    · exfalso
      subst hdata
      simp at hcount
    · rw [if_neg hdata]
      dsimp only
      by_cases hline : data.data.takeWhile (fun c => c ≠ '\n') = []
      · exfalso
        rw [hline] at hcount
        simp at hcount
      · rw [if_neg hline]
        obtain ⟨hmem, heq, hmax⟩ :=
          bestDelimPair_spec (data.data.takeWhile (fun c => c ≠ '\n'))
        have hpos : 0 < (bestDelimPair (data.data.takeWhile (fun c => c ≠ '\n'))).2 :=
          lt_of_lt_of_le hcount (hmax d hd)
        rw [if_pos hpos]
        refine ⟨hmem, fun d2 hd2 => ?_⟩
        have := hmax d2 hd2
        rw [heq] at this
        exact this
  · intro hall
    unfold detectDelimiter
    by_cases hdata : data = ""
    · rw [if_pos hdata]
    · rw [if_neg hdata]
      dsimp only
      by_cases hline : data.data.takeWhile (fun c => c ≠ '\n') = []
      · rw [if_pos hline]
      · rw [if_neg hline]
        obtain ⟨hmem, heq, _⟩ :=
          bestDelimPair_spec (data.data.takeWhile (fun c => c ≠ '\n'))
        have hzero : (bestDelimPair (data.data.takeWhile (fun c => c ≠ '\n'))).2 = 0 := by
          rw [heq]
          exact hall _ hmem
        rw [hzero]
        simp

/-- Witness for C9 on the spec scenario a;b;c over 1;2;3: the semicolon
wins. -/
theorem detectDelimiter_picks_max_witness :
    detectDelimiter "a;b;c\n1;2;3" = ';' ∧
    (detectDelimiter "a;b;c\n1;2;3" ∈ COMMON_DELIMITERS ∧
      ∀ d ∈ COMMON_DELIMITERS,
        (("a;b;c\n1;2;3" : String).data.takeWhile (fun c => c ≠ '\n')).count d ≤
          (("a;b;c\n1;2;3" : String).data.takeWhile (fun c => c ≠ '\n')).count
            (detectDelimiter "a;b;c\n1;2;3")) :=
  ⟨by decide, (detectDelimiter_picks_max "a;b;c\n1;2;3").1 (by decide)⟩

end CSVIL
